import Mathlib

/-!
Verification development for the CADmimic iteration pipeline
(`code_extraction.py`, `critique.py`, `evolution.py`, `render_six_views.py`,
`orchestrate_gemini_cq.py`).

The Python sources are shallowly embedded: Python `str` is modelled as
`String` (with the heavy lifting done on `List Char`), Python `dict`s as
association lists, the filesystem as a finite map from path to file
content, and every external oracle (the generative model, the scoring
model, the VTK renderer internals) as an explicit parameter.  Fallible
Python code is modelled with `Option`/`Except`; an exception that the
source catches is a `none`/`.error` value that the embedded caller
inspects, exactly where the source has its `try`/`except`.
-/

namespace CADmimic

/-! ## Basic Python string helpers (over `List Char`) -/

/-- Whitespace characters recognised by Python's `str.strip()` (the ASCII
ones; the logs and programs handled by the pipeline are ASCII). -/
def isPyWs (c : Char) : Bool :=
  c = ' ' || c = '\t' || c = '\n' || c = '\r' || c = Char.ofNat 11 || c = Char.ofNat 12

/-- Drop trailing characters satisfying `p`. -/
def dropTrail (p : Char → Bool) (l : List Char) : List Char :=
  (l.reverse.dropWhile p).reverse

/-- Python `str.strip()` on a character list. -/
def pyStripL (l : List Char) : List Char :=
  dropTrail isPyWs (l.dropWhile isPyWs)

/-- Python `str.strip()`. -/
def pyStrip (s : String) : String := ⟨pyStripL s.toList⟩

/-- Does `l` start with the sequence `pat`? -/
def startsWithSeq : List Char → List Char → Bool
  | _, [] => true
  | [], _ :: _ => false
  | c :: cs, p :: ps => c = p && startsWithSeq cs ps

/-- Does the sequence `pat` occur contiguously inside `l`?  This models
Python's `pat in s` substring test. -/
def containsSeq : List Char → List Char → Bool
  | [], pat => startsWithSeq [] pat
  | l@(_ :: cs), pat => startsWithSeq l pat || containsSeq cs pat

/-- Python's `pat in s`. -/
def pyContains (s pat : String) : Bool := containsSeq s.toList pat.toList

/-- Split a character list at every newline character. -/
def splitOnNl : List Char → List (List Char)
  | [] => [[]]
  | c :: cs =>
    let rest := splitOnNl cs
    if c = '\n' then [] :: rest
    else match rest with
      | [] => [[c]]
      | r :: rs => (c :: r) :: rs

/-- Python `str.splitlines()` restricted to `\n` separators (the render
log is written with explicit `"\n"` line terminators).  A trailing
newline does not produce a trailing empty line. -/
def pySplitlines (s : String) : List String :=
  let parts := (splitOnNl s.toList).map (fun l => (⟨l⟩ : String))
  match parts.getLast? with
  | some last => if last = "" then parts.dropLast else parts
  | none => parts

/-- Strict lexicographic order on character lists by code point; this is
how Python compares the `str` forms of two paths in the same directory. -/
def lexLtB : List Char → List Char → Bool
  | [], [] => false
  | [], _ :: _ => true
  | _ :: _, [] => false
  | c :: cs, d :: ds =>
    if c < d then true
    else if d < c then false
    else lexLtB cs ds

/-- Non-strict lexicographic order on character lists. -/
def lexLeB (a b : List Char) : Bool := !lexLtB b a

/-- Strict name order on strings (Python `str` comparison). -/
def strLtB (a b : String) : Bool := lexLtB a.toList b.toList

/-- Non-strict name order on strings. -/
def strLeB (a b : String) : Bool := lexLeB a.toList b.toList

/-! ## JSON values

Model of the JSON values the pipeline reads back from critique files.
`json.loads` produces dicts, lists, strings, integers and booleans here;
the scoring schema requests an integer score, so floating-point numbers
are left out of the model (no claim depends on them). -/

inductive Json where
  | null : Json
  | bool (b : Bool) : Json
  | int (n : Int) : Json
  | str (s : String) : Json
  | arr (elems : List Json) : Json
  | obj (fields : List (String × Json)) : Json
deriving Repr

/-- Python `dict.get k default` over the association list of a JSON
object: later duplicate keys overwrite earlier ones, as in
`json.loads`. -/
def dictGet (k : String) (fields : List (String × Json)) : Option Json :=
  fields.reverse.lookup k

/-- Python `int(s)` on a string: optional surrounding whitespace, an
optional sign, then one or more decimal digits (digit-group underscores
are not used by any input of interest). -/
def pyIntOfString (s : String) : Option Int :=
  let l := pyStripL s.toList
  let (neg, digits) :=
    match l with
    | '-' :: rest => (true, rest)
    | '+' :: rest => (false, rest)
    | _ => (false, l)
  if digits = [] || !digits.all (fun c => c.isDigit) then none
  else
    let n : Nat := digits.foldl (fun acc c => 10 * acc + (c.toNat - 48)) 0
    some (if neg then -(n : Int) else (n : Int))

/-- Python `int(x)` on a JSON value: identity on integers, `0`/`1` on
booleans, string parsing on strings, and a raised `TypeError` (modelled
as `none`) on `None`, lists and dicts. -/
def pyIntOfJson : Json → Option Int
  | .int n => some n
  | .bool b => some (if b then 1 else 0)
  | .str s => pyIntOfString s
  | .null => none
  | .arr _ => none
  | .obj _ => none

/-! ## `code_extraction.py` — fenced-block extraction -/

/-- The three-backtick fence marker of `FENCE_RE`. -/
def fenceMarker : List Char := '`' :: '`' :: '`' :: []

/-- First occurrence split: `findSeqSplit l pat = some (before, after)`
when `pat` first occurs in `l` with `l = before ++ pat ++ after`. -/
def findSeqSplit : List Char → List Char → Option (List Char × List Char)
  | [], pat => if startsWithSeq [] pat then some ([], []) else none
  | l@(c :: cs), pat =>
    if startsWithSeq l pat then some ([], l.drop pat.length)
    else match findSeqSplit cs pat with
      | some (pre, post) => some (c :: pre, post)
      | none => none

/-- Case-insensitive prefix test (for the `(?:python|py)?` group of
`FENCE_RE`, compiled with `re.IGNORECASE`). -/
def startsWithCI : List Char → List Char → Bool
  | _, [] => true
  | [], _ :: _ => false
  | c :: cs, p :: ps => c.toLower = p.toLower && startsWithCI cs ps

/-- After an opening fence, drop the optional language tag: the regex
alternation tries `python` first, then `py`, then the empty option. -/
def dropLangTag (l : List Char) : List Char :=
  if startsWithCI l ('p' :: 'y' :: 't' :: 'h' :: 'o' :: 'n' :: []) then l.drop 6
  else if startsWithCI l ('p' :: 'y' :: []) then l.drop 2
  else l

/-- All fenced blocks of `FENCE_RE.finditer`: find an opening ```` ``` ````,
drop the optional language tag and greedy whitespace, lazily capture up
to the next ```` ``` ````, and continue after the closing fence.  An
opening fence with no closing fence yields no further matches (no later
fence pair can exist, as the close search already covered the tail). -/
def scanFences (fuel : Nat) (l : List Char) : List (List Char) :=
  match fuel with
  | 0 => []
  | fuel + 1 =>
    match findSeqSplit l fenceMarker with
    | none => []
    | some (_, afterOpen) =>
      let bodyStart := (dropLangTag afterOpen).dropWhile isPyWs
      match findSeqSplit bodyStart fenceMarker with
      | none => []
      | some (body, rest) => body :: scanFences fuel rest

/-- The list of captured fenced blocks of the raw text. -/
def fenceBlocks (text : String) : List String :=
  (scanFences text.toList.length text.toList).map (fun l => (⟨l⟩ : String))

/-- `PY_HINTS` from `code_extraction.py`. -/
def PY_HINTS : List String :=
  ["import cadquery", "from cadquery", "show_object(", "cq.Workplane(", "result"]

/-- Hint score of `_pick_best_block`: how many `PY_HINTS` occur in the
block. -/
def hintScore (b : String) : Nat :=
  (PY_HINTS.filter (fun h => pyContains b h)).length

/-- The descending tuple comparison `(score, len(b), b)` used by
`scored.sort(reverse=True)` in `_pick_best_block`. -/
def blockTripleLt (a b : String) : Bool :=
  if hintScore a < hintScore b then true
  else if hintScore b < hintScore a then false
  else if a.toList.length < b.toList.length then true
  else if b.toList.length < a.toList.length then false
  else lexLtB a.toList b.toList

/-- `_pick_best_block`: maximum block under the `(score, length, text)`
tuple order (equal tuples are equal strings, so any maximum agrees with
the stable descending sort of the source). -/
def pickBestBlock : List String → String
  | [] => ""
  | b :: bs => bs.foldl (fun best x => if blockTripleLt best x then x else best) b

/-- `extract_python_code` from `code_extraction.py`. -/
def extract_python_code (text : String) : String :=
  if text = "" then ""
  else
    match fenceBlocks text with
    | [] => pyStrip text
    | blocks => pyStrip (pickBestBlock blocks)

/-! ## `code_extraction.py` — `sanitize_extrude_centered`

The source parses the program with `ast.parse`, strips every
`centered=` keyword from calls whose function is an attribute named
`extrude` (a `NodeTransformer` that rewrites after visiting children),
and re-serialises with `ast.unparse`.  The embedding covers the
fragment of Python the pipeline's claims exercise: newline-separated
statements that are either `name = expr` or a bare expression, where
expressions are names, integer literals, `True`/`False`, attribute
access and calls with positional and keyword arguments.  `ast.unparse`
output conventions for this fragment: statements joined by `"\n"`,
`" = "` around assignment, `", "` between arguments, `kw=value` with no
spaces for keywords. -/

mutual
inductive PExpr where
  | name (s : String) : PExpr
  | intLit (n : Nat) : PExpr
  | boolLit (b : Bool) : PExpr
  | attr (e : PExpr) (field : String) : PExpr
  | call (f : PExpr) (args : PArgs) : PExpr
inductive PArgs where
  | nil : PArgs
  | cons (a : PArg) (rest : PArgs) : PArgs
inductive PArg where
  | pos (e : PExpr) : PArg
  | kw (nm : String) (v : PExpr) : PArg
end

inductive PStmt where
  | assign (x : String) (e : PExpr) : PStmt
  | exprS (e : PExpr) : PStmt

/-- A parsed program: the statements of the module body. -/
def PProg := List PStmt

/-- Is this function expression an attribute access ending in
`.extrude` (the `node.func.attr == "extrude"` test of the source)? -/
def isExtrudeAttr : PExpr → Bool
  | .attr _ field => field = "extrude"
  | _ => false

/-- Is this argument the keyword `centered=` (`kw.arg != "centered"`
filter of the source)? -/
def isCenteredKw : PArg → Bool
  | .kw nm _ => nm = "centered"
  | .pos _ => false

/-- Remove every `centered=` keyword from one argument list. -/
def filterCentered : PArgs → PArgs
  | .nil => .nil
  | .cons a rest =>
    if isCenteredKw a then filterCentered rest
    else .cons a (filterCentered rest)

mutual
/-- The `_Strip` `NodeTransformer`: children first (`generic_visit`),
then drop `centered=` keywords when the call's function is an
`.extrude` attribute. -/
def stripExpr : PExpr → PExpr
  | .name s => .name s
  | .intLit n => .intLit n
  | .boolLit b => .boolLit b
  | .attr e field => .attr (stripExpr e) field
  | .call f args =>
    let f2 := stripExpr f
    let args2 := stripArgs args
    if isExtrudeAttr f2 then .call f2 (filterCentered args2)
    else .call f2 args2
def stripArgs : PArgs → PArgs
  | .nil => .nil
  | .cons a rest => .cons (stripArg a) (stripArgs rest)
def stripArg : PArg → PArg
  | .pos e => .pos (stripExpr e)
  | .kw nm v => .kw nm (stripExpr v)
end

def stripStmt : PStmt → PStmt
  | .assign x e => .assign x (stripExpr e)
  | .exprS e => .exprS (stripExpr e)

def stripProg (p : PProg) : PProg := p.map stripStmt

/-- Count of `centered=` keywords directly on one argument list. -/
def centeredCount : PArgs → Nat
  | .nil => 0
  | .cons a rest => (if isCenteredKw a then 1 else 0) + centeredCount rest

mutual
/-- Number of `centered=` keywords appearing on `.extrude` calls
anywhere in the expression. -/
def ecExpr : PExpr → Nat
  | .name _ => 0
  | .intLit _ => 0
  | .boolLit _ => 0
  | .attr e _ => ecExpr e
  | .call f args =>
    (if isExtrudeAttr f then centeredCount args else 0) + ecExpr f + ecArgs args
def ecArgs : PArgs → Nat
  | .nil => 0
  | .cons a rest => ecArg a + ecArgs rest
def ecArg : PArg → Nat
  | .pos e => ecExpr e
  | .kw _ v => ecExpr v
end

def ecStmt : PStmt → Nat
  | .assign _ e => ecExpr e
  | .exprS e => ecExpr e

def ecProg (p : PProg) : Nat := (p.map ecStmt).sum

mutual
/-- `ast.unparse` on the fragment's expressions. -/
def unparseExpr : PExpr → String
  | .name s => s
  | .intLit n => toString n
  | .boolLit b => if b then "True" else "False"
  | .attr e field => unparseExpr e ++ "." ++ field
  | .call f args => unparseExpr f ++ "(" ++ unparseArgsStr args ++ ")"
def unparseArgsStr : PArgs → String
  | .nil => ""
  | .cons a .nil => unparseArg a
  | .cons a (.cons b rest) => unparseArg a ++ ", " ++ unparseArgsStr (.cons b rest)
def unparseArg : PArg → String
  | .pos e => unparseExpr e
  | .kw nm v => nm ++ "=" ++ unparseExpr v
end

def unparseStmt : PStmt → String
  | .assign x e => x ++ " = " ++ unparseExpr e
  | .exprS e => unparseExpr e

def unparseProg (p : PProg) : String :=
  String.intercalate "\n" (p.map unparseStmt)

/-! ### Tokenizer and parser for the fragment -/

inductive Tok where
  | tname (s : String) : Tok
  | tnum (n : Nat) : Tok
  | tdot : Tok
  | tlparen : Tok
  | trparen : Tok
  | tcomma : Tok
  | teq : Tok
  | tnl : Tok
deriving Repr, DecidableEq

def isNameChar (c : Char) : Bool := c.isAlpha || c.isDigit || c = '_'

def natOfDigits (l : List Char) : Nat :=
  l.foldl (fun acc c => 10 * acc + (c.toNat - 48)) 0

def tokenizeF : Nat → List Char → Option (List Tok)
  | 0, _ => none
  | _, [] => some []
  | fuel + 1, c :: cs =>
    if c = ' ' || c = '\t' || c = '\r' then tokenizeF fuel cs
    else if c = '\n' then (tokenizeF fuel cs).map (Tok.tnl :: ·)
    else if c = '.' then (tokenizeF fuel cs).map (Tok.tdot :: ·)
    else if c = '(' then (tokenizeF fuel cs).map (Tok.tlparen :: ·)
    else if c = ')' then (tokenizeF fuel cs).map (Tok.trparen :: ·)
    else if c = ',' then (tokenizeF fuel cs).map (Tok.tcomma :: ·)
    else if c = '=' then (tokenizeF fuel cs).map (Tok.teq :: ·)
    else if c.isAlpha || c = '_' then
      (tokenizeF fuel (cs.dropWhile isNameChar)).map
        (Tok.tname ⟨c :: cs.takeWhile isNameChar⟩ :: ·)
    else if c.isDigit then
      (tokenizeF fuel (cs.dropWhile Char.isDigit)).map
        (Tok.tnum (natOfDigits (c :: cs.takeWhile Char.isDigit)) :: ·)
    else none

def parseAtom : List Tok → Option (PExpr × List Tok)
  | .tname s :: rest =>
    some (if s = "True" then .boolLit true
          else if s = "False" then .boolLit false
          else .name s, rest)
  | .tnum n :: rest => some (.intLit n, rest)
  | _ => none

mutual
def parseExprF : Nat → List Tok → Option (PExpr × List Tok)
  | 0, _ => none
  | fuel + 1, toks =>
    match parseAtom toks with
    | none => none
    | some (e, rest) => parseTrailersF fuel e rest
def parseTrailersF : Nat → PExpr → List Tok → Option (PExpr × List Tok)
  | 0, _, _ => none
  | fuel + 1, e, toks =>
    match toks with
    | .tdot :: .tname f :: rest => parseTrailersF fuel (.attr e f) rest
    | .tlparen :: rest =>
      match parseArgListF fuel rest with
      | some (args, .trparen :: rest2) => parseTrailersF fuel (.call e args) rest2
      | _ => none
    | _ => some (e, toks)
def parseArgListF : Nat → List Tok → Option (PArgs × List Tok)
  | 0, _ => none
  | fuel + 1, toks =>
    match toks with
    | .trparen :: _ => some (.nil, toks)
    | _ =>
      match parseArgF fuel toks with
      | none => none
      | some (a, rest) =>
        match rest with
        | .tcomma :: rest2 =>
          (parseArgListF fuel rest2).map (fun pr => (.cons a pr.1, pr.2))
        | _ => some (.cons a .nil, rest)
def parseArgF : Nat → List Tok → Option (PArg × List Tok)
  | 0, _ => none
  | fuel + 1, toks =>
    match toks with
    | .tname n :: .teq :: rest =>
      (parseExprF fuel rest).map (fun pr => (.kw n pr.1, pr.2))
    | _ => (parseExprF fuel toks).map (fun pr => (.pos pr.1, pr.2))
end

def parseExprAll (toks : List Tok) : Option PExpr :=
  match parseExprF (4 * toks.length + 4) toks with
  | some (e, []) => some e
  | _ => none

def parseLine (toks : List Tok) : Option PStmt :=
  match toks with
  | .tname x :: .teq :: rest => (parseExprAll rest).map (.assign x ·)
  | _ => (parseExprAll toks).map (.exprS ·)

/-- Split the token stream into physical lines. -/
def splitToksOnNl : List Tok → List (List Tok)
  | [] => [[]]
  | t :: ts =>
    let rest := splitToksOnNl ts
    if t = .tnl then [] :: rest
    else match rest with
      | [] => [[t]]
      | r :: rs => (t :: r) :: rs

/-- `ast.parse` restricted to the fragment: tokenize, split into lines,
parse each non-blank line as a statement. -/
def parseProg (code : String) : Option PProg :=
  match tokenizeF (code.toList.length + 1) code.toList with
  | none => none
  | some toks =>
    ((splitToksOnNl toks).filter (· ≠ [])).mapM parseLine

/-- `sanitize_extrude_centered` from `code_extraction.py`: parse, strip
`centered=` on `.extrude` calls, re-serialise with `ast.unparse`.  The
source's `except` branch (three regex substitutions applied when
`ast.parse` fails) is modelled as the identity: no claim exercises it,
and downstream uses depend only on the count of code files, never on
the text produced by that branch. -/
def sanitize_extrude_centered (code : String) : String :=
  match parseProg code with
  | some p => unparseProg (stripProg p)
  | none => code

/-! ## Filesystem model

Finite map from path to file content.  A path is a file iff it is
present; `read` is `Path.read_text(errors="ignore")`. -/

structure FS where
  files : List (String × String)

def FS.isFile (fs : FS) (p : String) : Bool := (fs.files.lookup p).isSome

def FS.read (fs : FS) (p : String) : String := (fs.files.lookup p).getD ""

/-- `VIEW_ORDER` from `critique.py` / `evolution.py`; also the insertion
order of the `views` dict in `render_six_views.py`. -/
def VIEW_ORDER : List String := ["top", "bottom", "front", "back", "left", "right"]

/-- Python `f"{n:02d}"`: zero-pad to width 2. -/
def pad2 (n : Nat) : String := if n < 10 then "0" ++ toString n else toString n

/-- A single-quote character, for reproducing Python string `repr`. -/
def sq : String := ⟨[Char.ofNat 39]⟩

/-- Python `repr` of a list of strings, as interpolated by an f-string:
`["top"] ↦ ['top']`. -/
def pyReprStrList (l : List String) : String :=
  "[" ++ String.intercalate ", " (l.map (fun s => sq ++ s ++ sq)) ++ "]"

/-! ## `critique.py` — `_is_success_variant` -/

/-- `_is_success_variant` from `critique.py`.  `image_map` is the
variant's view→png dict from the manifest; `log_path` its render log. -/
def is_success_variant (fs : FS) (log_path : String)
    (image_map : List (String × String)) : Bool × String :=
  let missing_keys := VIEW_ORDER.filter (fun v => ((image_map.lookup v).isSome : Bool) = false)
  if missing_keys ≠ [] then (false, "missing keys: " ++ pyReprStrList missing_keys)
  else
    let missing_files :=
      VIEW_ORDER.filter (fun v => fs.isFile ((image_map.lookup v).getD "") = false)
    if missing_files ≠ [] then (false, "missing files: " ++ pyReprStrList missing_files)
    else if fs.isFile log_path = false then (false, "no render log")
    else
      let lines := pySplitlines (fs.read log_path)
      if lines.any (fun ln => pyContains ln "View=" && pyContains ln "failed") then
        (false, "per-view failure present in log")
      else if lines.any (fun ln => pyContains ln "Wrote 6 image(s)") then
        (true, "ok")
      else
        (false, "no " ++ sq ++ "Wrote 6 image(s)" ++ sq ++ " line")

/-! ## `render_six_views.py`

The renderer's outcome depends on external libraries (module import,
CadQuery geometry, VTK).  Those effects are abstracted into a
`RenderEnv`; everything downstream of them (which branch runs, which
log lines are emitted, which paths are returned) is the source's own
control flow.  Timestamps and traceback text in the log are omitted:
the classifier only tests the substrings `"View="`, `"failed"` and
`"Wrote 6 image(s)"`, which are preserved verbatim. -/

structure RenderEnv where
  /-- Outcome of `_load_module_and_collect` + `_to_colored_shapes`:
  either a raised exception message or the number of collected shapes. -/
  load : Except String Nat
  /-- Whether the bounding-box/centering step succeeds. -/
  bboxOk : Bool
  /-- The set of views whose per-view VTK render raises. -/
  viewFails : List String

/-- `render_six_views`: returns the view→png map (always an entry for
all six canonical views, pointing at `<outdir>/<stem>_<view>.png`) and
the log lines written to the render log. -/
def render_six_views (env : RenderEnv) (infileStem outdir : String) :
    List (String × String) × List String :=
  let png := fun (v : String) => outdir ++ "/" ++ infileStem ++ "_" ++ v ++ ".png"
  let images := VIEW_ORDER.map (fun v => (v, png v))
  match env.load with
  | .error e => (images, ["[load] Loading module", "[load] Module load failed: " ++ e])
  | .ok n =>
    if n = 0 then
      (images, ["[load] Loading module",
                "[normalize] No shapes to render (expected Shape/Workplane/Assembly)"])
    else if env.bboxOk = false then
      (images, ["[load] Loading module", "[fit] Bounding box / center failed"])
    else
      let failLines := (VIEW_ORDER.filter (fun v => env.viewFails.contains v)).map
        (fun v => "[render] View=" ++ v ++ " failed")
      (images, ["[load] Loading module", "[fit] bbox centered@origin"] ++ failLines ++
        ["[done] Wrote 6 image(s) to " ++ outdir])

/-! ## `critique.py` — `critique_variants` -/

/-- Per-variant manifest entry (`{"code_file": ..., "images": ...}`). -/
structure VariantInfo where
  code_file : String
  images : List (String × String)

/-- Render-log path used by `critique_variants`:
`renders_root / variant / f"{variant}_render.log"`. -/
def logPathOf (rendersRoot variant : String) : String :=
  rendersRoot ++ "/" ++ variant ++ "/" ++ variant ++ "_render.log"

/-- `asyncio.gather(*tasks)` without `return_exceptions=True`: if any
task raised, the exception propagates to the awaiting coroutine
(modelled deterministically as the first failure in task-creation
order); otherwise all results are returned in order. -/
def gatherResults : List (String × Except String Json) → Except String (List (String × Json))
  | [] => .ok []
  | (_, .error e) :: _ => .error e
  | (v, .ok j) :: rest => (gatherResults rest).map (fun rs => (v, j) :: rs)

/-- `critique_variants` from `critique.py`: for each manifest entry (in
manifest order) classify it with `_is_success_variant`; schedule a
`_one_variant` scoring task only for the classified-successful ones;
gather.  `oracle v` is the outcome of variant `v`'s
`generate_content` + `json.loads` call: `.ok data` for a well-formed
response, `.error` for a raised exception. -/
def critique_variants (fs : FS) (manifest : List (String × VariantInfo))
    (rendersRoot : String) (oracle : String → Except String Json) :
    Except String (List (String × Json)) :=
  let selected := manifest.filter
    (fun vi => (is_success_variant fs (logPathOf rendersRoot vi.1) vi.2.images).1)
  gatherResults (selected.map (fun vi => (vi.1, oracle vi.1)))

/-! ## `evolution.py` — `_pick_top2` and `evolve_from_top2` -/

/-- The score extracted from one critique file by `_pick_top2`'s loop
body, `int(data.get("score", 0))`, with the surrounding
`try`/`except Exception: continue`: `none` models a raised exception
(unparsable JSON, `.get` on a non-dict, or an uncoercible score), in
which case the file is skipped. -/
def scoreOfCritique : Option Json → Option Int
  | none => none
  | some (.obj fields) =>
    match dictGet "score" fields with
    | none => some 0
    | some v => pyIntOfJson v
  | some _ => none

/-- The `(variant, score)` pairs accumulated by `_pick_top2`'s loop, in
input order, skipping files whose body raised. -/
def scoredList (files : List (String × Option Json)) : List (String × Int) :=
  files.filterMap (fun nc => (scoreOfCritique nc.2).map (fun s => (nc.1, s)))

/-- Stable insertion step for `sorted(...)` ascending by name. -/
def insertNameAsc {α : Type} (x : String × α) :
    List (String × α) → List (String × α)
  | [] => [x]
  | y :: ys => if strLeB y.1 x.1 then y :: insertNameAsc x ys else x :: y :: ys

/-- `sorted(...)` over name-keyed pairs: a stable insertion sort
ascending by name; Python's sort is also stable, and a stable sort is
unique, so the two agree.  Used for `sorted(critique_dir.glob(...))`
and `sorted(evolved_map.keys())`. -/
def sortByNameAsc {α : Type} : List (String × α) → List (String × α)
  | [] => []
  | x :: xs => insertNameAsc x (sortByNameAsc xs)

/-- Stable insertion step for `scored.sort(key=lambda t: t[1],
reverse=True)`: walk past entries with strictly greater score, so that
an equal-scored earlier entry stays first. -/
def insertScoreDesc (x : String × Int) : List (String × Int) → List (String × Int)
  | [] => [x]
  | y :: ys => if x.2 < y.2 then y :: insertScoreDesc x ys else x :: y :: ys

/-- Stable descending sort by score. -/
def sortScoreDesc : List (String × Int) → List (String × Int)
  | [] => []
  | x :: xs => insertScoreDesc x (sortScoreDesc xs)

/-- `_pick_top2` from `evolution.py`: the critique directory is a set of
`(stem, parsed-content)` files; glob-sort by name, extract scores
(skipping files that raise), stable-sort descending by score, take 2. -/
def pick_top2 (files : List (String × Option Json)) : List (String × Int) :=
  (sortScoreDesc (scoredList (sortByNameAsc files))).take 2

/-- Failure taxonomy of the evolution step.  `insufficientPopulation`
embeds the source's
`RuntimeError(f"Need >=2 critiques to evolve, found: {top2}")` — the
spec's `InsufficientPopulationError`. -/
inductive PipelineError where
  | insufficientPopulation (found : List (String × Int)) : PipelineError
  | keyError (name : String) : PipelineError
deriving Repr, DecidableEq

/-- `evolve_from_top2` from `evolution.py`: pick the top 2 critiques;
raise if fewer than 2; look both up in the manifest (`manifest[name]`
raises `KeyError` when absent); then issue `num` generation calls on
the shared contents and return the `candidate_XX → text` map.
`genOracle i` is the text returned by the `i`-th `_one_call`. -/
def evolve_from_top2 (manifest : List (String × VariantInfo))
    (critiqueFiles : List (String × Option Json)) (num : Nat)
    (genOracle : Nat → String) : Except PipelineError (List (String × String)) :=
  let top2 := pick_top2 critiqueFiles
  if top2.length < 2 then .error (.insufficientPopulation top2)
  else
    let varA := (top2.headD ("", 0)).1
    let varB := ((top2.drop 1).headD ("", 0)).1
    match manifest.lookup varA, manifest.lookup varB with
    | some _, some _ =>
      .ok ((List.range num).map (fun i => ("candidate_" ++ pad2 (i + 1), genOracle (i + 1))))
    | none, _ => .error (.keyError varA)
    | some _, none => .error (.keyError varB)

/-! ## `orchestrate_gemini_cq.py` — manifest construction -/

/-- `f"variant_{idx:02d}"`. -/
def variantName (idx : Nat) : String := "variant_" ++ pad2 idx

/-- `write_code_files` from `code_extraction.py`: the paths of the
written files, `out_dir / f"variant_{i:02d}.py"` for `i = 1..len`. -/
def write_code_files (outDir : String) (codes : List String) : List String :=
  (List.range codes.length).map (fun i => outDir ++ "/" ++ variantName (i + 1) ++ ".py")

/-- The render + manifest loop shared by `generate_initial` and
`evolve_round` in `orchestrate_gemini_cq.py`: for the `idx`-th code
path (1-based), render into `renders_root/variant_idx` with the log at
`.../variant_idx_render.log`, and record
`manifest[variant] = {"code_file": path, "images": img_map}`.
`renvs` gives each variant's abstract render outcome. -/
def buildManifest (rendersRoot : String) (codePaths : List String)
    (renvs : String → RenderEnv) : List (String × VariantInfo) :=
  (List.range codePaths.length).map (fun i =>
    let variant := variantName (i + 1)
    let vDir := rendersRoot ++ "/" ++ variant
    (variant,
      { code_file := codePaths.getD i ""
        images := (render_six_views (renvs variant) variant vDir).1 }))

/-- The extraction/sanitization/persistence/render/manifest part of
`generate_initial`: one raw oracle text per candidate in, the persisted
manifest out.  (The subsequent `critique_variants` call does not touch
the manifest.) -/
def generate_initial_manifest (iterDir : String) (texts : List String)
    (renvs : String → RenderEnv) : List (String × VariantInfo) :=
  let code_list := texts.map (fun t => sanitize_extrude_centered (extract_python_code t))
  let code_paths := write_code_files (iterDir ++ "/codes") code_list
  buildManifest (iterDir ++ "/renders") code_paths renvs

/-- The evolution round up to its manifest: `evolve_from_top2` first
(its `RuntimeError` propagates, aborting the round before any code is
written or rendered), then extract/sanitize/write/render as in round
0. -/
def evolve_round (iterDir : String) (prevManifest : List (String × VariantInfo))
    (prevCritiques : List (String × Option Json)) (num : Nat)
    (genOracle : Nat → String) (renvs : String → RenderEnv) :
    Except PipelineError (List (String × VariantInfo)) :=
  (evolve_from_top2 prevManifest prevCritiques num genOracle).map (fun evolvedMap =>
    let texts := (sortByNameAsc evolvedMap).map (·.2)
    generate_initial_manifest iterDir texts renvs)

/-! ## Spec-side success classifier (for claim C4)

Two definitions written from the spec's words, §4.4: a list of five
rules evaluated in order, the first failing rule being the reported
reason.  `claimedRule2` is the claim's rule (2) — artifact exists *and
is non-empty*; `amendedRule2` is existence only, which is what the
code's `Path(...).is_file()` tests. -/

/-- Rule booleans shared by both spec-side rule lists.  The image of a
view is looked up with an empty-path default; rule 1 guards it. -/
def ruleAllKeys (image_map : List (String × String)) : Bool :=
  VIEW_ORDER.all (fun v => (image_map.lookup v).isSome)

def ruleLogExists (fs : FS) (log_path : String) : Bool := fs.isFile log_path

def ruleNoFailLine (fs : FS) (log_path : String) : Bool :=
  !(pySplitlines (fs.read log_path)).any
    (fun ln => pyContains ln "View=" && pyContains ln "failed")

def ruleCompletionMarker (fs : FS) (log_path : String) : Bool :=
  (pySplitlines (fs.read log_path)).any (fun ln => pyContains ln "Wrote 6 image(s)")

/-- Rule 2 as the code implements it: every referenced artifact exists
as a file. -/
def ruleAllFilesExist (fs : FS) (image_map : List (String × String)) : Bool :=
  VIEW_ORDER.all (fun v => fs.isFile ((image_map.lookup v).getD ""))

/-- Rule 2 as the claim states it: every referenced artifact exists and
is non-empty. -/
def ruleAllFilesNonempty (fs : FS) (image_map : List (String × String)) : Bool :=
  VIEW_ORDER.all (fun v =>
    fs.isFile ((image_map.lookup v).getD "") &&
    !(fs.read ((image_map.lookup v).getD "") = ""))

/-- The claim's five rules, in order (rule 2 = exists and non-empty). -/
def claimedRules (fs : FS) (log_path : String)
    (image_map : List (String × String)) : List Bool :=
  [ruleAllKeys image_map,
   ruleAllFilesNonempty fs image_map,
   ruleLogExists fs log_path,
   ruleNoFailLine fs log_path,
   ruleCompletionMarker fs log_path]

/-- The amended five rules (rule 2 = existence only). -/
def amendedRules (fs : FS) (log_path : String)
    (image_map : List (String × String)) : List Bool :=
  [ruleAllKeys image_map,
   ruleAllFilesExist fs image_map,
   ruleLogExists fs log_path,
   ruleNoFailLine fs log_path,
   ruleCompletionMarker fs log_path]

def firstFailIndexAux : Nat → List Bool → Option Nat
  | _, [] => none
  | i, b :: rest => if b then firstFailIndexAux (i + 1) rest else some i

/-- 1-based index of the first failing rule, `none` if all pass. -/
def firstFailIndex (rules : List Bool) : Option Nat := firstFailIndexAux 1 rules

/-- Prefix test on strings. -/
def strStartsWith (s pre : String) : Bool := startsWithSeq s.toList pre.toList

/-- Which of the five rules a reason string of `_is_success_variant`
reports, recovered from its fixed prefixes; `none` for `"ok"`. -/
def codeReasonIndex (res : Bool × String) : Option Nat :=
  if res.1 then none
  else if strStartsWith res.2 "missing keys: " then some 1
  else if strStartsWith res.2 "missing files: " then some 2
  else if res.2 = "no render log" then some 3
  else if res.2 = "per-view failure present in log" then some 4
  else some 5

/-! ## General lemmas -/

theorem insertScoreDesc_perm (x : String × Int) (l : List (String × Int)) :
    List.Perm (insertScoreDesc x l) (x :: l) := by
  induction l with
  | nil => simp [insertScoreDesc]
  | cons y ys ih =>
    by_cases h : x.2 < y.2
    · simp only [insertScoreDesc, if_pos h]
      exact (ih.cons y).trans (List.Perm.swap x y ys)
    · simp [insertScoreDesc, if_neg h]

theorem sortScoreDesc_perm (l : List (String × Int)) : List.Perm (sortScoreDesc l) l := by
  induction l with
  | nil => simp [sortScoreDesc]
  | cons x xs ih =>
    exact (insertScoreDesc_perm x (sortScoreDesc xs)).trans (ih.cons x)

theorem insertNameAsc_perm {α : Type} (x : String × α) (l : List (String × α)) :
    List.Perm (insertNameAsc x l) (x :: l) := by
  induction l with
  | nil => simp [insertNameAsc]
  | cons y ys ih =>
    by_cases h : strLeB y.1 x.1
    · simp only [insertNameAsc, if_pos h]
      exact (ih.cons y).trans (List.Perm.swap x y ys)
    · simp [insertNameAsc, if_neg h]

theorem sortByNameAsc_perm {α : Type} (l : List (String × α)) : List.Perm (sortByNameAsc l) l := by
  induction l with
  | nil => simp [sortByNameAsc]
  | cons x xs ih =>
    exact (insertNameAsc_perm x (sortByNameAsc xs)).trans (ih.cons x)

theorem scoredList_insert_of_none (bad : String × Option Json)
    (h : scoreOfCritique bad.2 = none) (l : List (String × Option Json)) :
    scoredList (insertNameAsc bad l) = scoredList l := by
  induction l with
  | nil => simp [insertNameAsc, scoredList, h]
  | cons y ys ih =>
    by_cases hle : strLeB y.1 bad.1
    · simp only [insertNameAsc, if_pos hle, scoredList, List.filterMap_cons]
      simp only [scoredList] at ih
      rw [ih]
    · simp [insertNameAsc, if_neg hle, scoredList, List.filterMap_cons, h]

/-- The six view→path entries returned by `render_six_views` are the
same in every branch (real renders and placeholders share the same
paths). -/
theorem render_six_views_images (env : RenderEnv) (stem outdir : String) :
    (render_six_views env stem outdir).1 =
      VIEW_ORDER.map (fun v => (v, outdir ++ "/" ++ stem ++ "_" ++ v ++ ".png")) := by
  unfold render_six_views
  rcases env.load with e | n
  · rfl
  · by_cases h0 : n = 0
    · simp [h0]
    · by_cases hb : env.bboxOk = false <;> simp [h0, hb]

/-! ### Lemmas about the sanitizer -/

theorem centeredCount_filterCentered : (a : PArgs) → centeredCount (filterCentered a) = 0
  | .nil => rfl
  | .cons x rest => by
    by_cases h : isCenteredKw x
    · simp only [filterCentered, if_pos h]
      exact centeredCount_filterCentered rest
    · simp only [filterCentered, if_neg h, centeredCount, h, if_false]
      simpa using centeredCount_filterCentered rest

theorem ecArgs_filterCentered_le : (a : PArgs) → ecArgs (filterCentered a) ≤ ecArgs a
  | .nil => Nat.le_refl _
  | .cons x rest => by
    by_cases h : isCenteredKw x
    · simp only [filterCentered, if_pos h, ecArgs]
      exact (ecArgs_filterCentered_le rest).trans (Nat.le_add_left _ _)
    · simp only [filterCentered, if_neg h, ecArgs]
      exact Nat.add_le_add_left (ecArgs_filterCentered_le rest) _

theorem filterCentered_of_count_zero : (a : PArgs) → centeredCount a = 0 → filterCentered a = a
  | .nil, _ => rfl
  | .cons x rest, h => by
    simp only [centeredCount] at h
    by_cases hx : isCenteredKw x
    · rw [if_pos hx] at h
      omega
    · rw [if_neg hx] at h
      simp only [filterCentered, if_neg hx]
      rw [filterCentered_of_count_zero rest (by omega)]

mutual
theorem ecExpr_strip : (e : PExpr) → ecExpr (stripExpr e) = 0
  | .name _ => rfl
  | .intLit _ => rfl
  | .boolLit _ => rfl
  | .attr e _ => by simpa only [stripExpr, ecExpr] using ecExpr_strip e
  | .call f args => by
    have hf := ecExpr_strip f
    have ha := ecArgs_strip args
    by_cases h : isExtrudeAttr (stripExpr f)
    · have hfa : ecArgs (filterCentered (stripArgs args)) = 0 :=
        Nat.le_zero.mp (ha ▸ ecArgs_filterCentered_le (stripArgs args))
      simp only [stripExpr, if_pos h, ecExpr, if_pos h, hf, hfa,
        centeredCount_filterCentered]
    · simp only [stripExpr, if_neg h, ecExpr, if_neg h, hf, ha]
theorem ecArgs_strip : (a : PArgs) → ecArgs (stripArgs a) = 0
  | .nil => rfl
  | .cons x rest => by
    simp only [stripArgs, ecArgs, ecArg_strip x, ecArgs_strip rest]
theorem ecArg_strip : (a : PArg) → ecArg (stripArg a) = 0
  | .pos e => by simpa only [stripArg, ecArg] using ecExpr_strip e
  | .kw n v => by simpa only [stripArg, ecArg] using ecExpr_strip v
end

mutual
theorem stripExpr_of_ec_zero : (e : PExpr) → ecExpr e = 0 → stripExpr e = e
  | .name _, _ => rfl
  | .intLit _, _ => rfl
  | .boolLit _, _ => rfl
  | .attr e f, h => by
    simp only [ecExpr] at h
    simp only [stripExpr, stripExpr_of_ec_zero e h]
  | .call f args, h => by
    simp only [ecExpr] at h
    have hf : ecExpr f = 0 := by omega
    have ha : ecArgs args = 0 := by omega
    have hsf := stripExpr_of_ec_zero f hf
    have hsa := stripArgs_of_ec_zero args ha
    by_cases he : isExtrudeAttr f
    · have hc : centeredCount args = 0 := by
        rw [if_pos he] at h
        omega
      simp only [stripExpr, hsf, hsa, if_pos he, filterCentered_of_count_zero args hc]
    · simp only [stripExpr, hsf, hsa, if_neg he]
theorem stripArgs_of_ec_zero : (a : PArgs) → ecArgs a = 0 → stripArgs a = a
  | .nil, _ => rfl
  | .cons x rest, h => by
    simp only [ecArgs] at h
    simp only [stripArgs, stripArg_of_ec_zero x (by omega), stripArgs_of_ec_zero rest (by omega)]
theorem stripArg_of_ec_zero : (a : PArg) → ecArg a = 0 → stripArg a = a
  | .pos e, h => by
    simp only [ecArg] at h
    simp only [stripArg, stripExpr_of_ec_zero e h]
  | .kw n v, h => by
    simp only [ecArg] at h
    simp only [stripArg, stripExpr_of_ec_zero v h]
end

theorem ecStmt_strip (s : PStmt) : ecStmt (stripStmt s) = 0 := by
  cases s with
  | assign x e => simpa only [stripStmt, ecStmt] using ecExpr_strip e
  | exprS e => simpa only [stripStmt, ecStmt] using ecExpr_strip e

theorem ecProg_strip (p : PProg) : ecProg (stripProg p) = 0 := by
  induction p with
  | nil => rfl
  | cons s rest ih =>
    simp only [stripProg, ecProg, List.map_cons, List.sum_cons, ecStmt_strip, Nat.zero_add]
    simpa only [stripProg, ecProg] using ih

theorem stripStmt_of_ec_zero (s : PStmt) (h : ecStmt s = 0) : stripStmt s = s := by
  cases s with
  | assign x e =>
    simp only [ecStmt] at h
    simp only [stripStmt, stripExpr_of_ec_zero e h]
  | exprS e =>
    simp only [ecStmt] at h
    simp only [stripStmt, stripExpr_of_ec_zero e h]

theorem stripProg_of_ec_zero (p : PProg) (h : ecProg p = 0) : stripProg p = p := by
  induction p with
  | nil => rfl
  | cons s rest ih =>
    simp only [ecProg, List.map_cons, List.sum_cons] at h
    simp only [stripProg, List.map_cons]
    rw [stripStmt_of_ec_zero s (by omega)]
    have := ih (by simp only [ecProg]; omega)
    simp only [stripProg] at this
    rw [this]

/-! ### Lemmas about substring search, stripping and fence scanning -/

theorem startsWithSeq_append {m pat v : List Char} (h : startsWithSeq m pat = true) :
    startsWithSeq (m ++ v) pat = true := by
  induction pat generalizing m with
  | nil => cases hm : m ++ v <;> rfl
  | cons p ps ih =>
    cases m with
    | nil => simp [startsWithSeq] at h
    | cons c cs =>
      simp only [startsWithSeq, Bool.and_eq_true] at h
      simp only [List.cons_append, startsWithSeq, Bool.and_eq_true]
      exact ⟨h.1, ih h.2⟩

theorem containsSeq_append_right {a b pat : List Char} (h : containsSeq b pat = true) :
    containsSeq (a ++ b) pat = true := by
  induction a with
  | nil => simpa using h
  | cons c cs ih =>
    simp only [List.cons_append, containsSeq, Bool.or_eq_true]
    exact Or.inr ih

theorem containsSeq_append_left {m v pat : List Char} (h : containsSeq m pat = true) :
    containsSeq (m ++ v) pat = true := by
  induction m with
  | nil =>
    cases pat with
    | nil =>
      cases v with
      | nil => simpa using h
      | cons d ds => simp [containsSeq, startsWithSeq]
    | cons p ps => simp [containsSeq, startsWithSeq] at h
  | cons c cs ih =>
    simp only [containsSeq, Bool.or_eq_true] at h
    simp only [List.cons_append, containsSeq, Bool.or_eq_true]
    rcases h with h | h
    · exact Or.inl (startsWithSeq_append h)
    · exact Or.inr (ih h)

/-- No occurrence in a list → no occurrence in any infix of it. -/
theorem containsSeq_of_infix_eq_false {u m v pat : List Char}
    (h : containsSeq (u ++ m ++ v) pat = false) : containsSeq m pat = false := by
  by_contra hc
  have hm : containsSeq m pat = true := by
    cases hcm : containsSeq m pat with
    | true => rfl
    | false => exact absurd hcm hc
  have : containsSeq (u ++ m ++ v) pat = true := by
    rw [List.append_assoc]
    exact containsSeq_append_right (containsSeq_append_left hm)
  rw [this] at h
  exact absurd h (by decide)

theorem findSeqSplit_eq_none {l pat : List Char} (h : containsSeq l pat = false) :
    findSeqSplit l pat = none := by
  induction l with
  | nil =>
    simp only [containsSeq] at h
    simp [findSeqSplit, h]
  | cons c cs ih =>
    simp only [containsSeq, Bool.or_eq_false_iff] at h
    simp only [findSeqSplit, h.1, ih h.2]
    simp

theorem scanFences_eq_nil (fuel : Nat) {l : List Char}
    (h : findSeqSplit l fenceMarker = none) : scanFences fuel l = [] := by
  cases fuel with
  | zero => rfl
  | succ n =>
    unfold scanFences
    rw [h]

theorem fenceBlocks_eq_nil {t : String}
    (h : containsSeq t.toList fenceMarker = false) : fenceBlocks t = [] := by
  unfold fenceBlocks
  rw [scanFences_eq_nil _ (findSeqSplit_eq_none h)]
  rfl

/-- `l` decomposes around its stripped core: `pyStripL l` is an infix. -/
theorem pyStripL_infix (l : List Char) :
    ∃ u v, l = u ++ pyStripL l ++ v := by
  refine ⟨l.takeWhile isPyWs,
    ((l.dropWhile isPyWs).reverse.takeWhile isPyWs).reverse, ?_⟩
  have h1 : l = l.takeWhile isPyWs ++ l.dropWhile isPyWs :=
    (List.takeWhile_append_dropWhile _ _).symm
  have h2 : l.dropWhile isPyWs =
      pyStripL l ++ ((l.dropWhile isPyWs).reverse.takeWhile isPyWs).reverse := by
    have h3 : (l.dropWhile isPyWs).reverse =
        (l.dropWhile isPyWs).reverse.takeWhile isPyWs ++
          (l.dropWhile isPyWs).reverse.dropWhile isPyWs :=
      (List.takeWhile_append_dropWhile _ _).symm
    have h4 := congrArg List.reverse h3
    simp only [List.reverse_reverse, List.reverse_append] at h4
    simpa only [pyStripL, dropTrail] using h4
  rw [List.append_assoc, ← h2]
  exact h1

theorem dropWhile_idem (p : Char → Bool) (l : List Char) :
    List.dropWhile p (List.dropWhile p l) = List.dropWhile p l := by
  induction l with
  | nil => rfl
  | cons c cs ih =>
    by_cases h : p c
    · simpa only [List.dropWhile_cons, h, if_true] using ih
    · simp only [List.dropWhile_cons, h, if_false]
      simp only [Bool.false_eq_true, if_false]
      rw [List.dropWhile_cons]
      simp [h]

/-- If every element of a prefix-closed head position fails `p`, the
prefix is untouched: a prefix of `dropWhile p m` is its own
`dropWhile`. -/
theorem dropWhile_eq_self_of_prefix {p : Char → Bool} {m m' t : List Char}
    (hm : List.dropWhile p m = m) (hpre : m' ++ t = m) :
    List.dropWhile p m' = m' := by
  cases m' with
  | nil => rfl
  | cons c rest =>
    have hc : p c = false := by
      rw [← hpre] at hm
      simp only [List.cons_append] at hm
      by_contra hpc
      have hpc2 : p c = true := by
        cases hx : p c with
        | true => rfl
        | false => exact absurd hx hpc
      rw [List.dropWhile_cons, hpc2] at hm
      simp only [if_true] at hm
      have hlen := congrArg List.length hm
      have hle : (List.dropWhile p (rest ++ t)).length ≤ (rest ++ t).length :=
        List.Sublist.length_le (List.dropWhile_sublist _)
      simp only [List.length_cons] at hlen
      omega
    rw [List.dropWhile_cons, hc]
    simp

theorem pyStripL_idem (l : List Char) : pyStripL (pyStripL l) = pyStripL l := by
  have hA : List.dropWhile isPyWs (pyStripL l) = pyStripL l := by
    have hcore : List.dropWhile isPyWs (List.dropWhile isPyWs l) = List.dropWhile isPyWs l :=
      dropWhile_idem _ _
    have hpre : pyStripL l ++ ((l.dropWhile isPyWs).reverse.takeWhile isPyWs).reverse =
        List.dropWhile isPyWs l := by
      have h3 : (l.dropWhile isPyWs).reverse =
          (l.dropWhile isPyWs).reverse.takeWhile isPyWs ++
            (l.dropWhile isPyWs).reverse.dropWhile isPyWs :=
        (List.takeWhile_append_dropWhile _ _).symm
      have h4 := congrArg List.reverse h3
      simp only [List.reverse_reverse, List.reverse_append] at h4
      simpa only [pyStripL, dropTrail] using h4.symm
    exact dropWhile_eq_self_of_prefix hcore hpre
  have hB : dropTrail isPyWs (pyStripL l) = pyStripL l := by
    unfold dropTrail
    have : List.dropWhile isPyWs (pyStripL l).reverse = (pyStripL l).reverse := by
      have : (pyStripL l).reverse = List.dropWhile isPyWs (l.dropWhile isPyWs).reverse := by
        simp only [pyStripL, dropTrail, List.reverse_reverse]
      rw [this]
      exact dropWhile_idem _ _
    rw [this, List.reverse_reverse]
  calc pyStripL (pyStripL l) = dropTrail isPyWs (pyStripL l) := by
        show dropTrail isPyWs (List.dropWhile isPyWs (pyStripL l)) =
          dropTrail isPyWs (pyStripL l)
        rw [hA]
    _ = pyStripL l := hB

/-! ## Claims -/

/-- C1 counterexample: a raw scoring response with score `-5` is passed
through selection as `-5`, not normalized to `1`; the recorded score is
outside `[1, 10]`. -/
theorem score_minus5_not_normalized :
    pick_top2 [("variant_01", some (.obj [("score", .int (-5))]))] =
      [("variant_01", -5)] ∧
    ¬ (1 ≤ (-5 : Int) ∧ (-5 : Int) ≤ 10) := by
  constructor
  · rfl
  · decide

/-- C1 (amended): no normalization is applied anywhere in the pipeline.
A critique whose `score` field is the integer `n` participates in
selection with exactly `n` (so `-5 → -5` and `14 → 14`, out of range);
an entirely absent `score` field yields `0` (not a documented in-range
default); and a non-numeric `score` raises inside the per-file `try`,
so the critique is skipped rather than defaulted.  The `[1, 10]` range
is only requested of the external oracle via its response schema. -/
theorem score_passthrough_no_normalization (name : String) (n : Int) :
    pick_top2 [(name, some (.obj [("score", .int n)]))] = [(name, n)] ∧
    scoreOfCritique (some (.obj [("good", .arr []), ("bad", .arr [])])) = some 0 ∧
    scoreOfCritique (some (.obj [("score", .str "8.9")])) = none := by
  refine ⟨?_, rfl, rfl⟩
  simp [pick_top2, sortByNameAsc, insertNameAsc, scoredList, List.filterMap,
    scoreOfCritique, dictGet, pyIntOfJson, sortScoreDesc, insertScoreDesc]

/-- C10: during top-2 selection, a critique file whose content cannot
be parsed (or whose score cannot be coerced to `int`) is silently
skipped — dropping it from the directory does not change the selection
and nothing propagates (`pick_top2` is total); and a parsed critique
with no `score` key participates with score `0`, below the documented
valid range `[1, 10]`. -/
theorem pick_top2_error_tolerance :
    (∀ (files : List (String × Option Json)) (bad : String × Option Json),
      scoreOfCritique bad.2 = none → pick_top2 (bad :: files) = pick_top2 files) ∧
    scoreOfCritique (some (.obj [("good", .arr [.str "a"]), ("bad", .arr [])])) = some 0 ∧
    ((0 : Int) < 1) := by
  refine ⟨?_, rfl, by decide⟩
  intro files bad h
  show (sortScoreDesc (scoredList (insertNameAsc bad (sortByNameAsc files)))).take 2 = _
  rw [scoredList_insert_of_none bad h]
  rfl

/-- C10 witness: an unparsable critique file (`json.loads` raised) in
the directory leaves selection unchanged. -/
theorem pick_top2_error_tolerance_witness :
    pick_top2 [("variant_00", none), ("variant_01", some (.obj [("score", .int 7)]))] =
      pick_top2 [("variant_01", some (.obj [("score", .int 7)]))] ∧
    pick_top2 [("variant_00", none), ("variant_01", some (.obj [("score", .int 7)]))] =
      [("variant_01", 7)] :=
  ⟨pick_top2_error_tolerance.1 _ ("variant_00", none) rfl, rfl⟩

/-- C3: for every round with population size `N = texts.length`, the
persisted manifest has exactly `N` entries, the `k`-th (0-based) being
candidate `variant_(k+1)` with its program path and a view→image map
whose keys are exactly the six canonical views — independent of the
render outcomes `renvs` (failures included). -/
theorem manifest_always_complete (iterDir : String) (texts : List String)
    (renvs : String → RenderEnv) :
    (generate_initial_manifest iterDir texts renvs).length = texts.length ∧
    ∀ k (hk : k < (generate_initial_manifest iterDir texts renvs).length),
      ((generate_initial_manifest iterDir texts renvs).get ⟨k, hk⟩).1 =
        variantName (k + 1) ∧
      ((generate_initial_manifest iterDir texts renvs).get ⟨k, hk⟩).2.code_file =
        iterDir ++ "/codes" ++ "/" ++ variantName (k + 1) ++ ".py" ∧
      (((generate_initial_manifest iterDir texts renvs).get ⟨k, hk⟩).2.images).map
          Prod.fst = VIEW_ORDER := by
  constructor
  · simp [generate_initial_manifest, buildManifest, write_code_files]
  · intro k hk
    have hk2 : k < texts.length := by
      simpa [generate_initial_manifest, buildManifest, write_code_files] using hk
    refine ⟨?_, ?_, ?_⟩
    · simp [generate_initial_manifest, buildManifest, write_code_files, hk2]
    · simp [generate_initial_manifest, buildManifest, write_code_files, hk2,
        List.getD, render_six_views_images]
    · have hmap : ∀ f : String → String,
          (VIEW_ORDER.map (fun v => (v, f v))).map Prod.fst = VIEW_ORDER := fun _ => rfl
      simp [generate_initial_manifest, buildManifest, render_six_views_images, hmap]

/-- C3 witness: a concrete round of 3 candidates in which candidate 2's
module load raises and candidate 3 has a per-view failure still yields
a 3-entry manifest with all six views mapped for every candidate. -/
theorem manifest_always_complete_witness :
    (generate_initial_manifest "out/0"
        ["```python\nimport cadquery\n```", "oops", "x=1"]
        (fun v =>
          if v = "variant_02" then ⟨.error "ImportError", true, []⟩
          else if v = "variant_03" then ⟨.ok 1, true, ["front"]⟩
          else ⟨.ok 1, true, []⟩)).length = 3 := by
  have h := (manifest_always_complete "out/0"
    ["```python\nimport cadquery\n```", "oops", "x=1"]
    (fun v =>
      if v = "variant_02" then ⟨.error "ImportError", true, []⟩
      else if v = "variant_03" then ⟨.ok 1, true, ["front"]⟩
      else ⟨.ok 1, true, []⟩)).1
  simpa using h

/-- C8: with fewer than 2 scored candidates at selection time,
`evolve_from_top2` fails with the insufficient-population error (the
source's `RuntimeError("Need >=2 critiques to evolve, ...")`), the
whole evolution round propagates that error (aborting the run), and no
generation calls are issued — the result does not depend on the
generation oracle at all. -/
theorem evolve_insufficient_population (iterDir : String)
    (manifest : List (String × VariantInfo))
    (critiqueFiles : List (String × Option Json)) (num : Nat)
    (genOracle : Nat → String) (renvs : String → RenderEnv)
    (h : (scoredList (sortByNameAsc critiqueFiles)).length < 2) :
    evolve_from_top2 manifest critiqueFiles num genOracle =
      .error (.insufficientPopulation (pick_top2 critiqueFiles)) ∧
    (∀ genOracle2 : Nat → String,
      evolve_from_top2 manifest critiqueFiles num genOracle2 =
        evolve_from_top2 manifest critiqueFiles num genOracle) ∧
    evolve_round iterDir manifest critiqueFiles num genOracle renvs =
      .error (.insufficientPopulation (pick_top2 critiqueFiles)) := by
  have hlen : (pick_top2 critiqueFiles).length < 2 := by
    have hperm := sortScoreDesc_perm (scoredList (sortByNameAsc critiqueFiles))
    have := hperm.length_eq
    simp only [pick_top2, List.length_take]
    omega
  have h1 : evolve_from_top2 manifest critiqueFiles num genOracle =
      .error (.insufficientPopulation (pick_top2 critiqueFiles)) := by
    unfold evolve_from_top2
    rw [if_pos hlen]
  refine ⟨h1, ?_, ?_⟩
  · intro g2
    unfold evolve_from_top2
    rw [if_pos hlen, if_pos hlen]
  · unfold evolve_round
    rw [h1]
    rfl

/-- C8 witness: exactly one scored candidate → the
insufficient-population failure, independent of the oracle. -/
theorem evolve_insufficient_population_witness :
    evolve_from_top2 [("variant_01", ⟨"p.py", []⟩)]
        [("variant_01", some (.obj [("score", .int 9)]))] 10 (fun _ => "code") =
      .error (.insufficientPopulation [("variant_01", 9)]) :=
  (evolve_insufficient_population "out/1" [("variant_01", ⟨"p.py", []⟩)]
    [("variant_01", some (.obj [("score", .int 9)]))] 10 (fun _ => "code")
    (fun _ => ⟨.ok 1, true, []⟩) (by decide)).1

/-- C5 counterexample: `"x=1"` contains no `centered=` argument at all,
yet sanitization returns `"x = 1"` — the function is not a no-op and
the output is not byte-identical to the input, because the whole
program is re-serialised by `ast.unparse`. -/
theorem sanitize_not_byte_identical :
    sanitize_extrude_centered "x=1" = "x = 1" ∧
    ecProg ((parseProg "x=1").getD []) = 0 ∧
    ("x = 1" : String) ≠ "x=1" := by
  refine ⟨rfl, rfl, by decide⟩

/-- C5 (amended): sanitization is the syntax-tree rewrite
`parse → strip → unparse`: the stripped tree has no `centered=` left on
any `.extrude` call, and a program with no such occurrence has its tree
unchanged — so `centered=` on a call to any other method survives (it
is printed back verbatim, as the concrete `c.box` instance shows, and
the `.extrude` instance loses exactly its `centered=` argument).  But
the returned text is the tree's canonical re-serialisation, not a
byte-level copy of the input, so the function is a textual no-op only
on already-canonically-formatted input. -/
theorem sanitize_structural_rewrite :
    (∀ (code : String) (p : PProg), parseProg code = some p →
      sanitize_extrude_centered code = unparseProg (stripProg p) ∧
      ecProg (stripProg p) = 0 ∧
      (ecProg p = 0 → stripProg p = p)) ∧
    sanitize_extrude_centered "r.extrude(4, centered=True)" = "r.extrude(4)" ∧
    sanitize_extrude_centered "c.box(2, centered=True)" = "c.box(2, centered=True)" := by
  refine ⟨?_, rfl, rfl⟩
  intro code p h
  refine ⟨?_, ecProg_strip p, stripProg_of_ec_zero p⟩
  unfold sanitize_extrude_centered
  rw [h]

/-- C5 witness: the amended theorem applied to the concrete program
`"c.box(2, centered=True)"`, whose tree has no `centered=` on an
`.extrude` call and is therefore left unchanged by the strip. -/
theorem sanitize_structural_rewrite_witness :
    sanitize_extrude_centered "c.box(2, centered=True)" =
      unparseProg (stripProg ((parseProg "c.box(2, centered=True)").getD [])) ∧
    stripProg ((parseProg "c.box(2, centered=True)").getD []) =
      (parseProg "c.box(2, centered=True)").getD [] :=
  ⟨(sanitize_structural_rewrite.1 "c.box(2, centered=True)" _ rfl).1,
   (sanitize_structural_rewrite.1 "c.box(2, centered=True)" _ rfl).2.2 rfl⟩

/-- C6: on non-empty text with no fence marker (hence no delimited code
region), extraction returns the whole text stripped of surrounding
whitespace, and extraction is idempotent on such bare program text:
`extract (extract t) = extract t`. -/
theorem extract_idempotent_on_bare (t : String) (h1 : t ≠ "")
    (h2 : containsSeq t.toList fenceMarker = false) :
    extract_python_code t = pyStrip t ∧
    extract_python_code (extract_python_code t) = extract_python_code t := by
  have hfb : fenceBlocks t = [] := fenceBlocks_eq_nil h2
  have hx : extract_python_code t = pyStrip t := by
    unfold extract_python_code
    rw [if_neg h1, hfb]
  refine ⟨hx, ?_⟩
  rw [hx]
  by_cases hz : pyStrip t = ""
  · rw [hz]
    rfl
  · have h2b : containsSeq (pyStrip t).toList fenceMarker = false := by
      have htl : (pyStrip t).toList = pyStripL t.toList := rfl
      rw [htl]
      obtain ⟨u, v, huv⟩ := pyStripL_infix t.toList
      have h2c : containsSeq (u ++ pyStripL t.toList ++ v) fenceMarker = false := by
        rw [← huv]
        exact h2
      exact containsSeq_of_infix_eq_false h2c
    have hfb2 : fenceBlocks (pyStrip t) = [] := fenceBlocks_eq_nil h2b
    unfold extract_python_code
    rw [if_neg hz, hfb2]
    show (⟨pyStripL (pyStrip t).toList⟩ : String) = pyStrip t
    have hidem : pyStripL (pyStrip t).toList = pyStripL t.toList := pyStripL_idem t.toList
    rw [hidem]
    rfl

/-- C6 witness: a concrete bare program text. -/
theorem extract_idempotent_on_bare_witness :
    extract_python_code "  import cadquery as cq\nresult = cq.Workplane()\n" =
      "import cadquery as cq\nresult = cq.Workplane()" ∧
    extract_python_code
        (extract_python_code "  import cadquery as cq\nresult = cq.Workplane()\n") =
      extract_python_code "  import cadquery as cq\nresult = cq.Workplane()\n" := by
  have h := extract_idempotent_on_bare
    "  import cadquery as cq\nresult = cq.Workplane()\n" (by decide) (by decide)
  exact ⟨h.1.trans (by rfl), h.2⟩

/-! ### Lemmas about `gatherResults` and round fixtures -/

theorem gatherResults_error_iff (tasks : List (String × Except String Json)) :
    (∃ e, gatherResults tasks = .error e) ↔ ∃ t ∈ tasks, ∃ e, t.2 = .error e := by
  induction tasks with
  | nil => simp [gatherResults]
  | cons t rest ih =>
    obtain ⟨v, r⟩ := t
    cases r with
    | error e => simp [gatherResults]
    | ok j =>
      cases hr : gatherResults rest with
      | error e =>
        simp only [gatherResults, hr, Except.map]
        constructor
        · intro _
          have : ∃ e2, gatherResults rest = .error e2 := ⟨e, hr⟩
          obtain ⟨t2, ht2, he2⟩ := ih.mp this
          exact ⟨t2, List.mem_cons_of_mem _ ht2, he2⟩
        · intro _
          exact ⟨e, rfl⟩
      | ok rs =>
        simp only [gatherResults, hr, Except.map]
        constructor
        · intro ⟨e, he⟩
          exact absurd he (by simp)
        · intro ⟨t2, ht2, e2, he2⟩
          rcases List.mem_cons.mp ht2 with h | h
          · subst h
            simp at he2
          · have : ∃ e, gatherResults rest = .error e := ih.mpr ⟨t2, h, e2, he2⟩
            rw [hr] at this
            obtain ⟨e, he⟩ := this
            simp at he

theorem gatherResults_ok_mem {tasks : List (String × Except String Json)}
    {rs : List (String × Json)} (h : gatherResults tasks = .ok rs) :
    ∀ p ∈ rs, (p.1, Except.ok p.2) ∈ tasks := by
  induction tasks generalizing rs with
  | nil =>
    simp only [gatherResults] at h
    cases h
    simp
  | cons t rest ih =>
    obtain ⟨v, r⟩ := t
    cases r with
    | error e => simp [gatherResults] at h
    | ok j =>
      cases hr : gatherResults rest with
      | error e =>
        simp [gatherResults, hr, Except.map] at h
      | ok rs2 =>
        simp only [gatherResults, hr, Except.map, Except.ok.injEq] at h
        subst h
        intro p hp
        rcases List.mem_cons.mp hp with h | h
        · subst h
          exact List.mem_cons_self _ _
        · exact List.mem_cons_of_mem _ (ih hr p h)

/-- The six view→image entries of a variant directory. -/
def imagesFor (root v : String) : List (String × String) :=
  VIEW_ORDER.map (fun w => (w, root ++ "/" ++ v ++ "/" ++ v ++ "_" ++ w ++ ".png"))

/-- Filesystem entries for a variant's six (non-empty) png artifacts. -/
def pngFilesFor (root v : String) : List (String × String) :=
  (imagesFor root v).map (fun p => (p.2, "PNG"))

/-- A round's filesystem: all twelve pngs of two variants plus a render
log for each; variant 1's log records a per-view failure for the
`front` view, variant 2's log is clean. -/
def fsRound : FS :=
  ⟨pngFilesFor "r" "variant_01" ++ pngFilesFor "r" "variant_02" ++
    [("r/variant_01/variant_01_render.log",
      "[render] View=front failed\n[done] Wrote 6 image(s) to r\n"),
     ("r/variant_02/variant_02_render.log",
      "[done] Wrote 6 image(s) to r\n")]⟩

/-- A round's filesystem in which both variants' logs are clean. -/
def fsRoundOk : FS :=
  ⟨pngFilesFor "r" "variant_01" ++ pngFilesFor "r" "variant_02" ++
    [("r/variant_01/variant_01_render.log",
      "[done] Wrote 6 image(s) to r\n"),
     ("r/variant_02/variant_02_render.log",
      "[done] Wrote 6 image(s) to r\n")]⟩

/-- The two-variant manifest of the fixture round. -/
def manifestRound : List (String × VariantInfo) :=
  [("variant_01", ⟨"codes/variant_01.py", imagesFor "r" "variant_01"⟩),
   ("variant_02", ⟨"codes/variant_02.py", imagesFor "r" "variant_02"⟩)]

/-- A scoring oracle that raises on variant 1 and answers variant 2. -/
def oracleFail1 : String → Except String Json := fun v =>
  if v = "variant_01" then .error "ServerError: 500"
  else .ok (.obj [("good", .arr []), ("bad", .arr []), ("score", .int 8)])

/-- C2 counterexample: in a round where both candidates render
successfully (both classified successful), a failure in candidate 1's
scoring call propagates out of `critique_variants` — the round's
critique phase returns the raised error instead of the remaining
candidates' critiques, although candidate 2's oracle call succeeds. -/
theorem critique_failure_propagates :
    critique_variants fsRoundOk manifestRound "r" oracleFail1 =
      .error "ServerError: 500" ∧
    (is_success_variant fsRoundOk (logPathOf "r" "variant_01")
      (imagesFor "r" "variant_01")).1 = true ∧
    (is_success_variant fsRoundOk (logPathOf "r" "variant_02")
      (imagesFor "r" "variant_02")).1 = true ∧
    oracleFail1 "variant_02" =
      .ok (.obj [("good", .arr []), ("bad", .arr []), ("score", .int 8)]) := by
  refine ⟨rfl, rfl, rfl, rfl⟩

/-- C2 (amended): the two phases are asymmetric.  A render failure is
caught inside `render_six_views` — whatever the abstract outcome, the
call returns a full six-view map and nothing propagates.  A scoring
failure is not isolated: `critique_variants` (whose `asyncio.gather`
has no `return_exceptions`) raises exactly when some
classified-successful candidate's scoring call raises. -/
theorem critique_failure_isolation_amended (fs : FS)
    (manifest : List (String × VariantInfo)) (root : String)
    (oracle : String → Except String Json) :
    (∀ (env : RenderEnv) (stem outdir : String),
      ((render_six_views env stem outdir).1).map Prod.fst = VIEW_ORDER) ∧
    ((∃ e, critique_variants fs manifest root oracle = .error e) ↔
      ∃ p ∈ manifest,
        (is_success_variant fs (logPathOf root p.1) p.2.images).1 = true ∧
        ∃ e, oracle p.1 = .error e) := by
  constructor
  · intro env stem outdir
    rw [render_six_views_images]
    rfl
  · unfold critique_variants
    rw [gatherResults_error_iff]
    constructor
    · intro ⟨t, ht, e, he⟩
      obtain ⟨vi, hvi, hmap⟩ := List.mem_map.mp ht
      have hfil := List.mem_filter.mp hvi
      refine ⟨vi, hfil.1, by simpa using hfil.2, e, ?_⟩
      rw [← hmap] at he
      simpa using he
    · intro ⟨p, hp, hcls, e, he⟩
      refine ⟨(p.1, oracle p.1), ?_, e, he⟩
      exact List.mem_map.mpr ⟨p, List.mem_filter.mpr ⟨hp, by simpa using hcls⟩, rfl⟩

/-- C2 amended witness: the fixture round instantiates both directions
— candidate 1's scoring failure is exactly why the phase fails. -/
theorem critique_failure_isolation_amended_witness :
    (((render_six_views ⟨.error "ImportError", true, []⟩ "variant_01"
        "r/variant_01").1).map Prod.fst = VIEW_ORDER) ∧
    (∃ e, critique_variants fsRoundOk manifestRound "r" oracleFail1 = .error e) := by
  have h := critique_failure_isolation_amended fsRoundOk manifestRound "r" oracleFail1
  refine ⟨h.1 _ _ _, ?_⟩
  refine h.2.mpr ⟨("variant_01", ⟨"codes/variant_01.py", imagesFor "r" "variant_01"⟩),
    ?_, rfl, "ServerError: 500", rfl⟩
  simp [manifestRound]

/-- C9: whenever the critique phase completes, every candidate holding
a persisted critique was accepted by the success classifier (critiques
are scheduled only for classifier-accepted manifest entries). -/
theorem critiques_subset_classified (fs : FS)
    (manifest : List (String × VariantInfo)) (root : String)
    (oracle : String → Except String Json) (rs : List (String × Json))
    (h : critique_variants fs manifest root oracle = .ok rs) :
    ∀ v data, (v, data) ∈ rs →
      ∃ info, (v, info) ∈ manifest ∧
        (is_success_variant fs (logPathOf root v) info.images).1 = true := by
  intro v data hmem
  unfold critique_variants at h
  have htask := gatherResults_ok_mem h (v, data) hmem
  obtain ⟨vi, hvi, hmap⟩ := List.mem_map.mp htask
  have hfil := List.mem_filter.mp hvi
  have hv : vi.1 = v := congrArg Prod.fst hmap
  refine ⟨vi.2, ?_, ?_⟩
  · rw [← hv]
    exact hfil.1
  · rw [← hv]
    simpa using hfil.2

/-- C9 witness (scenario B): variant 1's render log marks a per-view
failure for the `front` view; the round's critiques contain only
variant 2, while variant 1 is still present in the manifest. -/
theorem critiques_subset_classified_witness :
    (∃ info, ("variant_02", info) ∈ manifestRound ∧
      (is_success_variant fsRound (logPathOf "r" "variant_02") info.images).1 = true) ∧
    (critique_variants fsRound manifestRound "r" oracleFail1).map
        (fun rs => rs.map Prod.fst) = .ok ["variant_02"] ∧
    (is_success_variant fsRound (logPathOf "r" "variant_01")
      (imagesFor "r" "variant_01")).1 = false ∧
    ("variant_01", (⟨"codes/variant_01.py", imagesFor "r" "variant_01"⟩ : VariantInfo)) ∈
      manifestRound := by
  refine ⟨?_, rfl, rfl, by simp [manifestRound]⟩
  exact critiques_subset_classified fsRound manifestRound "r" oracleFail1 _ rfl
    "variant_02" (.obj [("good", .arr []), ("bad", .arr []), ("score", .int 8)])
    (by simp)

/-! ### Lemmas for the classifier refinement (C4) -/

theorem strToList_append (a b : String) : (a ++ b).toList = a.toList ++ b.toList := by
  cases a
  cases b
  rfl

theorem startsWithSeq_self_append (p r : List Char) : startsWithSeq (p ++ r) p = true := by
  induction p with
  | nil => cases r <;> rfl
  | cons c cs ih =>
    simp only [List.cons_append, startsWithSeq, Bool.and_eq_true]
    exact ⟨by simp, ih⟩

theorem startsWithSeq_take {pre r p : List Char} (hlen : p.length ≤ pre.length) :
    startsWithSeq (pre ++ r) p = startsWithSeq pre p := by
  induction p generalizing pre with
  | nil => cases hx : pre ++ r <;> cases pre <;> rfl
  | cons x xs ih =>
    cases pre with
    | nil => simp at hlen
    | cons c cs =>
      simp only [List.length_cons, Nat.add_le_add_iff_right] at hlen
      simp only [List.cons_append, startsWithSeq]
      have := @ih cs hlen
      simp only [List.append_eq] at this ⊢
      rw [this]

theorem strStartsWith_append (pre s : String) : strStartsWith (pre ++ s) pre = true := by
  unfold strStartsWith
  rw [strToList_append]
  exact startsWithSeq_self_append _ _

theorem strStartsWith_fixed {pre s p : String}
    (hlen : p.toList.length ≤ pre.toList.length) :
    strStartsWith (pre ++ s) p = strStartsWith pre p := by
  unfold strStartsWith
  rw [strToList_append]
  exact startsWithSeq_take hlen

theorem ruleAllKeys_iff (image_map : List (String × String)) :
    (VIEW_ORDER.filter (fun v => ((image_map.lookup v).isSome : Bool) = false)) = [] ↔
      ruleAllKeys image_map = true := by
  simp [ruleAllKeys, List.filter_eq_nil_iff, List.all_eq_true]

theorem ruleAllFilesExist_iff (fs : FS) (image_map : List (String × String)) :
    (VIEW_ORDER.filter (fun v => fs.isFile ((image_map.lookup v).getD "") = false)) = [] ↔
      ruleAllFilesExist fs image_map = true := by
  simp [ruleAllFilesExist, List.filter_eq_nil_iff, List.all_eq_true]

theorem codeReasonIndex_missing_keys (X : String) :
    codeReasonIndex (false, "missing keys: " ++ X) = some 1 := by
  simp [codeReasonIndex, strStartsWith_append]

theorem codeReasonIndex_missing_files (X : String) :
    codeReasonIndex (false, "missing files: " ++ X) = some 2 := by
  have h1 : strStartsWith ("missing files: " ++ X) "missing keys: " = false := by
    rw [strStartsWith_fixed (by decide)]
    decide
  simp [codeReasonIndex, h1, strStartsWith_append]

/-- The concrete fixture for the C4 counterexample: all six artifacts
of the variant exist, but the `front` png is an empty file; the log is
clean and carries the completion marker. -/
def fsEmptyFront : FS :=
  ⟨(imagesFor "r" "variant_01").map
      (fun p => (p.2, if p.1 = "front" then "" else "PNG")) ++
    [("r/variant_01/variant_01_render.log", "[done] Wrote 6 image(s) to r\n")]⟩

/-- C4 counterexample: the classifier's second check is existence only
(`Path(...).is_file()`), not "exists and is non-empty": with an
existing but empty `front` artifact the code accepts the variant, while
the claim's rule (2) fails. -/
theorem classifier_accepts_empty_artifact :
    is_success_variant fsEmptyFront (logPathOf "r" "variant_01")
      (imagesFor "r" "variant_01") = (true, "ok") ∧
    fsEmptyFront.read (((imagesFor "r" "variant_01").lookup "front").getD "") = "" ∧
    ruleAllFilesNonempty fsEmptyFront (imagesFor "r" "variant_01") = false ∧
    (claimedRules fsEmptyFront (logPathOf "r" "variant_01")
      (imagesFor "r" "variant_01")).all id = false := by
  refine ⟨rfl, rfl, rfl, rfl⟩

/-- C4 (amended): `_is_success_variant` is the in-order five-rule
classifier of the claim with rule (2) weakened to existence only: it
accepts exactly when all five amended rules hold, and the reason it
reports identifies precisely the first failing rule of the amended
list. -/
theorem classifier_five_rules_amended (fs : FS) (log_path : String)
    (image_map : List (String × String)) :
    ((is_success_variant fs log_path image_map).1 = true ↔
      (amendedRules fs log_path image_map).all id = true) ∧
    codeReasonIndex (is_success_variant fs log_path image_map) =
      firstFailIndex (amendedRules fs log_path image_map) := by
  by_cases hA : ruleAllKeys image_map = true
  case neg =>
    have hA2 : ruleAllKeys image_map = false := by
      cases hx : ruleAllKeys image_map with
      | true => exact absurd hx hA
      | false => rfl
    have hmk : ¬ (VIEW_ORDER.filter
        (fun v => ((image_map.lookup v).isSome : Bool) = false) = []) := by
      rw [ruleAllKeys_iff]
      simp [hA2]
    have hcode : is_success_variant fs log_path image_map =
        (false, "missing keys: " ++ pyReprStrList (VIEW_ORDER.filter
          (fun v => ((image_map.lookup v).isSome : Bool) = false))) := by
      simp only [is_success_variant, ne_eq, hmk, not_false_eq_true, if_true]
    rw [hcode]
    constructor
    · simp [amendedRules, hA2]
    · rw [codeReasonIndex_missing_keys]
      simp [amendedRules, hA2, firstFailIndex, firstFailIndexAux]
  case pos =>
    have hmk : (VIEW_ORDER.filter
        (fun v => ((image_map.lookup v).isSome : Bool) = false) = []) :=
      (ruleAllKeys_iff image_map).mpr hA
    by_cases hB : ruleAllFilesExist fs image_map = true
    case neg =>
      have hB2 : ruleAllFilesExist fs image_map = false := by
        cases hx : ruleAllFilesExist fs image_map with
        | true => exact absurd hx hB
        | false => rfl
      have hmf : ¬ (VIEW_ORDER.filter
          (fun v => fs.isFile ((image_map.lookup v).getD "") = false) = []) := by
        rw [ruleAllFilesExist_iff]
        simp [hB2]
      have hcode : is_success_variant fs log_path image_map =
          (false, "missing files: " ++ pyReprStrList (VIEW_ORDER.filter
            (fun v => fs.isFile ((image_map.lookup v).getD "") = false))) := by
        simp only [is_success_variant, ne_eq, hmk, not_true_eq_false, if_false,
          hmf, not_false_eq_true, if_true]
      rw [hcode]
      constructor
      · simp [amendedRules, hA, hB2]
      · rw [codeReasonIndex_missing_files]
        simp [amendedRules, hA, hB2, firstFailIndex, firstFailIndexAux]
    case pos =>
      have hmf : (VIEW_ORDER.filter
          (fun v => fs.isFile ((image_map.lookup v).getD "") = false) = []) :=
        (ruleAllFilesExist_iff fs image_map).mpr hB
      by_cases hC : ruleLogExists fs log_path = true
      case neg =>
        have hC2 : fs.isFile log_path = false := by
          cases hx : fs.isFile log_path with
          | true => exact absurd hx hC
          | false => rfl
        have hcode : is_success_variant fs log_path image_map =
            (false, "no render log") := by
          simp only [is_success_variant, ne_eq, hmk, not_true_eq_false, if_false,
            hmf, hC2, if_true]
        rw [hcode]
        constructor
        · simp [amendedRules, hA, hB, ruleLogExists, hC2]
        · simp [codeReasonIndex, strStartsWith, amendedRules, hA, hB,
            ruleLogExists, hC2, firstFailIndex, firstFailIndexAux]
          decide
      case pos =>
        have hC2 : fs.isFile log_path = true := hC
        by_cases hD : ruleNoFailLine fs log_path = true
        case neg =>
          have hD2 : (pySplitlines (fs.read log_path)).any
              (fun ln => pyContains ln "View=" && pyContains ln "failed") = true := by
            unfold ruleNoFailLine at hD
            cases hx : (pySplitlines (fs.read log_path)).any
                (fun ln => pyContains ln "View=" && pyContains ln "failed") with
            | true => rfl
            | false => rw [hx] at hD; exact absurd rfl hD
          have hcode : is_success_variant fs log_path image_map =
              (false, "per-view failure present in log") := by
            simp only [is_success_variant, ne_eq, hmk, not_true_eq_false, if_false,
              hmf, hC2, Bool.true_eq_false, hD2, if_true]
          rw [hcode]
          have hD3 : ruleNoFailLine fs log_path = false := by
            unfold ruleNoFailLine
            rw [hD2]
            rfl
          constructor
          · simp [amendedRules, hA, hB, ruleLogExists, hC2, hD3]
          · simp [codeReasonIndex, strStartsWith, amendedRules, hA, hB,
              ruleLogExists, hC2, hD3, firstFailIndex, firstFailIndexAux]
            decide
        case pos =>
          have hD2 : (pySplitlines (fs.read log_path)).any
              (fun ln => pyContains ln "View=" && pyContains ln "failed") = false := by
            unfold ruleNoFailLine at hD
            cases hx : (pySplitlines (fs.read log_path)).any
                (fun ln => pyContains ln "View=" && pyContains ln "failed") with
            | true => rw [hx] at hD; exact absurd hD (by decide)
            | false => rfl
          by_cases hE : ruleCompletionMarker fs log_path = true
          case pos =>
            have hcode : is_success_variant fs log_path image_map = (true, "ok") := by
              have hE2 : (pySplitlines (fs.read log_path)).any
                  (fun ln => pyContains ln "Wrote 6 image(s)") = true := hE
              simp only [is_success_variant, ne_eq, hmk, not_true_eq_false, if_false,
                hmf, hC2, Bool.true_eq_false, hD2, hE2, if_true, Bool.false_eq_true]
            rw [hcode]
            constructor
            · simp [amendedRules, hA, hB, ruleLogExists, hC2, ruleNoFailLine, hD2, hE]
            · simp [codeReasonIndex, amendedRules, hA, hB, ruleLogExists, hC2,
                ruleNoFailLine, hD2, hE, firstFailIndex, firstFailIndexAux]
          case neg =>
            have hE2 : (pySplitlines (fs.read log_path)).any
                (fun ln => pyContains ln "Wrote 6 image(s)") = false := by
              cases hx : (pySplitlines (fs.read log_path)).any
                  (fun ln => pyContains ln "Wrote 6 image(s)") with
              | true => exact absurd hx hE
              | false => rfl
            have hcode : is_success_variant fs log_path image_map =
                (false, "no " ++ sq ++ "Wrote 6 image(s)" ++ sq ++ " line") := by
              simp only [is_success_variant, ne_eq, hmk, not_true_eq_false, if_false,
                hmf, hC2, Bool.true_eq_false, hD2, hE2, if_true, Bool.false_eq_true]
            rw [hcode]
            have hE3 : ruleCompletionMarker fs log_path = false := hE2
            constructor
            · simp [amendedRules, hA, hB, ruleLogExists, hC2, ruleNoFailLine, hD2, hE3]
            · simp [codeReasonIndex, strStartsWith, amendedRules, hA, hB,
                ruleLogExists, hC2, ruleNoFailLine, hD2, hE3,
                firstFailIndex, firstFailIndexAux]
              decide

/-- C4 witness: the amended classifier equivalence at the clean fixture
round (variant 2 accepted; the `ok` outcome matches all five amended
rules passing) and at the per-view-failure fixture (variant 1 rejected
with rule 4 as the first failing rule). -/
theorem classifier_five_rules_amended_witness :
    ((is_success_variant fsRound (logPathOf "r" "variant_02")
        (imagesFor "r" "variant_02")).1 = true ↔
      (amendedRules fsRound (logPathOf "r" "variant_02")
        (imagesFor "r" "variant_02")).all id = true) ∧
    codeReasonIndex (is_success_variant fsRound (logPathOf "r" "variant_01")
        (imagesFor "r" "variant_01")) =
      firstFailIndex (amendedRules fsRound (logPathOf "r" "variant_01")
        (imagesFor "r" "variant_01")) ∧
    firstFailIndex (amendedRules fsRound (logPathOf "r" "variant_01")
        (imagesFor "r" "variant_01")) = some 4 :=
  ⟨(classifier_five_rules_amended fsRound (logPathOf "r" "variant_02")
      (imagesFor "r" "variant_02")).1,
   (classifier_five_rules_amended fsRound (logPathOf "r" "variant_01")
      (imagesFor "r" "variant_01")).2,
   rfl⟩

/-! ### Order lemmas for the selection policy (C7) -/

theorem lexLtB_trans : ∀ {a b c : List Char},
    lexLtB a b = true → lexLtB b c = true → lexLtB a c = true
  | [], [], _, hab, _ => by simp [lexLtB] at hab
  | [], _ :: _, [], _, hbc => by simp [lexLtB] at hbc
  | [], _ :: _, _ :: _, _, _ => by simp [lexLtB]
  | _ :: _, [], _, hab, _ => by simp [lexLtB] at hab
  | _ :: _, _ :: _, [], _, hbc => by simp [lexLtB] at hbc
  | x :: xs, y :: ys, z :: zs, hab, hbc => by
    simp only [lexLtB] at hab hbc ⊢
    by_cases hxy : x < y
    · by_cases hyz : y < z
      · rw [if_pos (hxy.trans hyz)]
      · by_cases hzy : z < y
        · rw [if_neg hyz, if_pos hzy] at hbc
          exact absurd hbc (by decide)
        · have hyeq : y = z := le_antisymm (le_of_not_lt hzy) (le_of_not_lt hyz)
          subst hyeq
          rw [if_pos hxy]
    · by_cases hyx : y < x
      · rw [if_neg hxy, if_pos hyx] at hab
        exact absurd hab (by decide)
      · have hxeq : x = y := le_antisymm (le_of_not_lt hyx) (le_of_not_lt hxy)
        subst hxeq
        rw [if_neg hxy, if_neg hyx] at hab
        by_cases hxz : x < z
        · rw [if_pos hxz]
        · by_cases hzx : z < x
          · rw [if_neg hxz, if_pos hzx] at hbc
            exact absurd hbc (by decide)
          · rw [if_neg hxz, if_neg hzx] at hbc ⊢
            exact lexLtB_trans hab hbc

theorem lexLtB_asymm : ∀ {a b : List Char},
    lexLtB a b = true → lexLtB b a = false
  | [], [], hab => by simp [lexLtB] at hab
  | [], _ :: _, _ => by simp [lexLtB]
  | _ :: _, [], hab => by simp [lexLtB] at hab
  | x :: xs, y :: ys, hab => by
    simp only [lexLtB] at hab ⊢
    by_cases hxy : x < y
    · have hyx : ¬ y < x := lt_asymm hxy
      rw [if_neg hyx, if_pos hxy]
    · by_cases hyx : y < x
      · rw [if_neg hxy, if_pos hyx] at hab
        exact absurd hab (by decide)
      · rw [if_neg hxy, if_neg hyx] at hab
        rw [if_neg hyx, if_neg hxy]
        exact lexLtB_asymm hab

theorem lexLtB_total : ∀ {a b : List Char}, a ≠ b →
    lexLtB a b = true ∨ lexLtB b a = true
  | [], [], h => absurd rfl h
  | [], _ :: _, _ => Or.inl (by simp [lexLtB])
  | _ :: _, [], _ => Or.inr (by simp [lexLtB])
  | x :: xs, y :: ys, h => by
    by_cases hxy : x < y
    · exact Or.inl (by simp only [lexLtB]; rw [if_pos hxy])
    · by_cases hyx : y < x
      · exact Or.inr (by simp only [lexLtB]; rw [if_pos hyx])
      · have hxeq : x = y := le_antisymm (le_of_not_lt hyx) (le_of_not_lt hxy)
        have hne : xs ≠ ys := by
          intro hc
          exact h (by rw [hxeq, hc])
        rcases lexLtB_total hne with h2 | h2
        · refine Or.inl ?_
          simp only [lexLtB]
          rw [if_neg hxy, if_neg hyx]
          exact h2
        · refine Or.inr ?_
          simp only [lexLtB]
          rw [if_neg hyx, if_neg hxy]
          exact h2

theorem strLtB_total {a b : String} (h : a ≠ b) :
    strLtB a b = true ∨ strLtB b a = true := by
  have hl : a.toList ≠ b.toList := by
    intro hc
    apply h
    cases a with | mk da => ?_
    cases b with | mk db => ?_
    have hdd : da = db := hc
    rw [hdd]
  exact lexLtB_total hl

theorem strLeB_of_not_le {a b : String} (h : ¬ strLeB a b = true) :
    strLeB b a = true := by
  have h2 : lexLtB b.toList a.toList = true := by
    simpa [strLeB, lexLeB] using h
  have h3 : lexLtB a.toList b.toList = false := lexLtB_asymm h2
  show (!lexLtB a.toList b.toList) = true
  rw [h3]
  rfl

theorem strLeB_trans {a b c : String} (h1 : strLeB a b = true)
    (h2 : strLeB b c = true) : strLeB a c = true := by
  have h1b : lexLtB b.toList a.toList = false := by simpa [strLeB, lexLeB] using h1
  have h2b : lexLtB c.toList b.toList = false := by simpa [strLeB, lexLeB] using h2
  have hca : lexLtB c.toList a.toList = false := by
    cases hx : lexLtB c.toList a.toList with
    | false => rfl
    | true =>
      by_cases hbc : b.toList = c.toList
      · rw [← hbc] at hx
        rw [hx] at h1b
        exact h1b
      · rcases lexLtB_total hbc with h3 | h3
        · have h4 := lexLtB_trans h3 hx
          rw [h4] at h1b
          exact h1b
        · rw [h3] at h2b
          exact h2b
  show (!lexLtB c.toList a.toList) = true
  rw [hca]
  rfl

theorem strLtB_of_le_of_ne {a b : String} (hle : strLeB a b = true) (hne : a ≠ b) :
    strLtB a b = true := by
  rcases strLtB_total hne with h | h
  · exact h
  · have h2 : lexLtB b.toList a.toList = false := by simpa [strLeB, lexLeB] using hle
    unfold strLtB at h
    rw [h] at h2
    exact absurd h2 (by decide)

/-- The selection order the claim describes: strictly larger score
first, name (candidate ordinal) ascending on ties. -/
def selBefore (a b : String × Int) : Prop :=
  b.2 < a.2 ∨ (a.2 = b.2 ∧ strLtB a.1 b.1 = true)

theorem mem_insertNameAsc {α : Type} {z x : String × α} {l : List (String × α)} :
    z ∈ insertNameAsc x l ↔ z = x ∨ z ∈ l := by
  rw [(insertNameAsc_perm x l).mem_iff]
  simp

theorem mem_insertScoreDesc {z x : String × Int} {l : List (String × Int)} :
    z ∈ insertScoreDesc x l ↔ z = x ∨ z ∈ l := by
  rw [(insertScoreDesc_perm x l).mem_iff]
  simp

theorem insertNameAsc_pairwise {α : Type} {x : String × α} {l : List (String × α)}
    (hl : List.Pairwise (fun p q => strLeB p.1 q.1 = true) l) :
    List.Pairwise (fun p q => strLeB p.1 q.1 = true) (insertNameAsc x l) := by
  induction l with
  | nil => simp [insertNameAsc]
  | cons y ys ih =>
    rcases List.pairwise_cons.mp hl with ⟨hy, hys⟩
    by_cases h : strLeB y.1 x.1 = true
    · simp only [insertNameAsc, h, if_true]
      refine List.pairwise_cons.mpr ⟨?_, ih hys⟩
      intro z hz
      rcases mem_insertNameAsc.mp hz with rfl | hz2
      · exact h
      · exact hy z hz2
    · simp only [insertNameAsc, h, if_false]
      have hxy : strLeB x.1 y.1 = true := strLeB_of_not_le h
      refine List.pairwise_cons.mpr ⟨?_, hl⟩
      intro z hz
      rcases List.mem_cons.mp hz with rfl | hz2
      · exact hxy
      · exact strLeB_trans hxy (hy z hz2)

theorem sortByNameAsc_pairwise {α : Type} (l : List (String × α)) :
    List.Pairwise (fun p q => strLeB p.1 q.1 = true) (sortByNameAsc l) := by
  induction l with
  | nil => simp [sortByNameAsc]
  | cons x xs ih => exact insertNameAsc_pairwise ih

theorem scoredList_mem {q : String × Int} {l : List (String × Option Json)}
    (h : q ∈ scoredList l) : ∃ p ∈ l, p.1 = q.1 := by
  unfold scoredList at h
  obtain ⟨p, hp, hmap⟩ := List.mem_filterMap.mp h
  cases hsc : scoreOfCritique p.2 with
  | none =>
    rw [hsc] at hmap
    simp at hmap
  | some s =>
    rw [hsc] at hmap
    simp only [Option.map, Option.some.injEq] at hmap
    exact ⟨p, hp, by rw [← hmap]⟩

theorem scoredList_pairwise {R : String → String → Prop}
    {l : List (String × Option Json)}
    (h : List.Pairwise (fun p q => R p.1 q.1) l) :
    List.Pairwise (fun p q => R p.1 q.1) (scoredList l) := by
  induction l with
  | nil => simp [scoredList]
  | cons x xs ih =>
    rcases List.pairwise_cons.mp h with ⟨hx, hxs⟩
    show List.Pairwise _ (List.filterMap _ (x :: xs))
    rw [List.filterMap_cons]
    cases hsc : scoreOfCritique x.2 with
    | none =>
      simp only [hsc, Option.map]
      exact ih hxs
    | some s =>
      simp only [hsc, Option.map]
      refine List.pairwise_cons.mpr ⟨?_, ih hxs⟩
      intro q hq
      obtain ⟨p, hp, hp1⟩ := scoredList_mem hq
      have h2 := hx p hp
      rw [hp1] at h2
      exact h2

theorem insertScoreDesc_pairwise {x : String × Int} {l : List (String × Int)}
    (hl : List.Pairwise selBefore l) (hx : ∀ y ∈ l, strLtB x.1 y.1 = true) :
    List.Pairwise selBefore (insertScoreDesc x l) := by
  induction l with
  | nil => simp [insertScoreDesc]
  | cons y ys ih =>
    rcases List.pairwise_cons.mp hl with ⟨hy, hys⟩
    by_cases h : x.2 < y.2
    · simp only [insertScoreDesc, if_pos h]
      refine List.pairwise_cons.mpr
        ⟨?_, ih hys (fun z hz => hx z (List.mem_cons_of_mem _ hz))⟩
      intro z hz
      rcases mem_insertScoreDesc.mp hz with rfl | hz2
      · exact Or.inl h
      · exact hy z hz2
    · simp only [insertScoreDesc, if_neg h]
      refine List.pairwise_cons.mpr ⟨?_, hl⟩
      intro z hz
      rcases List.mem_cons.mp hz with rfl | hz2
      · rcases lt_or_eq_of_le (le_of_not_lt h) with h2 | h2
        · exact Or.inl h2
        · exact Or.inr ⟨h2.symm, hx z (List.mem_cons_self _ _)⟩
      · rcases hy z hz2 with h2 | h2
        · exact Or.inl (lt_of_lt_of_le h2 (le_of_not_lt h))
        · rcases lt_or_eq_of_le (le_of_not_lt h) with h3 | h3
          · exact Or.inl (h2.1 ▸ h3)
          · refine Or.inr ⟨?_, hx z (List.mem_cons_of_mem _ hz2)⟩
            rw [← h3, h2.1]

theorem sortScoreDesc_pairwise {l : List (String × Int)}
    (h : List.Pairwise (fun p q => strLtB p.1 q.1 = true) l) :
    List.Pairwise selBefore (sortScoreDesc l) := by
  induction l with
  | nil => simp [sortScoreDesc]
  | cons x xs ih =>
    rcases List.pairwise_cons.mp h with ⟨hx, hxs⟩
    refine insertScoreDesc_pairwise (ih hxs) ?_
    intro y hy
    exact hx y ((sortScoreDesc_perm xs).mem_iff.mp hy)

set_option maxRecDepth 100000 in
set_option maxHeartbeats 4000000 in
/-- For ordinals up to 99, the zero-padded `variant_XX` names compare
exactly as the ordinals do: filename order is generation order while
the two-digit padding covers the ordinal. -/
theorem variantName_mono : ∀ i j : Fin 99, i < j →
    strLtB (variantName (i.1 + 1)) (variantName (j.1 + 1)) = true := by decide

/-- C7 counterexample: ties are broken by candidate id (filename)
ascending, not by ordinal.  With 3-digit ordinals the two orders
diverge: on a tie between `variant_99` and `variant_100`, selection
returns the later-generated `variant_100` first, because
`"variant_100" < "variant_99"` lexicographically. -/
theorem pick_top2_tiebreak_counterexample :
    pick_top2 [("variant_099", some (.obj [("score", .int 5)])),
               ("variant_100", some (.obj [("score", .int 5)]))] =
      [("variant_099", 5), ("variant_100", 5)] ∧
    pick_top2 [("variant_99", some (.obj [("score", .int 5)])),
               ("variant_100", some (.obj [("score", .int 5)]))] =
      [("variant_100", 5), ("variant_99", 5)] ∧
    strLtB "variant_100" "variant_99" = true ∧ (99 : Nat) < 100 := by
  exact ⟨rfl, rfl, rfl, by decide⟩

/-- C7 (amended): with at least 2 scored candidates, `_pick_top2`
returns exactly 2 entries: the first dominates the second and both
dominate every other scored candidate under the selection order
"strictly larger score first, candidate id ascending on ties".  Ids are
the zero-padded `variant_XX` names, whose order coincides with ordinal
order (earlier-generated wins) for ordinals up to 99 — the first
conjunct; beyond the two-digit padding the lexicographic id order
diverges from ordinal order (see the counterexample).  The scored
candidates are the `(variant, score)` pairs extracted from the
name-sorted critique files. -/
theorem pick_top2_spec (files : List (String × Option Json))
    (hnodup : (files.map Prod.fst).Nodup)
    (h2 : 2 ≤ (scoredList (sortByNameAsc files)).length) :
    (∀ i j : Fin 99, i < j →
      strLtB (variantName (i.1 + 1)) (variantName (j.1 + 1)) = true) ∧
    ∃ a b, pick_top2 files = [a, b] ∧
      a ∈ scoredList (sortByNameAsc files) ∧
      b ∈ scoredList (sortByNameAsc files) ∧
      b.2 ≤ a.2 ∧ selBefore a b ∧
      ∀ c ∈ scoredList (sortByNameAsc files), c ≠ a → c ≠ b →
        selBefore a c ∧ selBefore b c := by
  refine ⟨variantName_mono, ?_⟩
  have hpairle : List.Pairwise
      (fun p q : String × Option Json => strLeB p.1 q.1 = true)
      (sortByNameAsc files) := sortByNameAsc_pairwise files
  have hnodup2 : ((sortByNameAsc files).map Prod.fst).Nodup :=
    ((sortByNameAsc_perm files).map Prod.fst).nodup_iff.mpr hnodup
  have hpairne : List.Pairwise
      (fun p q : String × Option Json => p.1 ≠ q.1) (sortByNameAsc files) :=
    List.pairwise_map.mp hnodup2
  have hpairlt : List.Pairwise
      (fun p q : String × Option Json => strLtB p.1 q.1 = true)
      (sortByNameAsc files) :=
    (hpairle.and hpairne).imp (fun h => strLtB_of_le_of_ne h.1 h.2)
  have hent_lt : List.Pairwise (fun p q : String × Int => strLtB p.1 q.1 = true)
      (scoredList (sortByNameAsc files)) :=
    @scoredList_pairwise (fun a b => strLtB a b = true) _ hpairlt
  have hsorted : List.Pairwise selBefore
      (sortScoreDesc (scoredList (sortByNameAsc files))) :=
    sortScoreDesc_pairwise hent_lt
  have hperm : List.Perm (sortScoreDesc (scoredList (sortByNameAsc files)))
      (scoredList (sortByNameAsc files)) := sortScoreDesc_perm _
  have hlen : 2 ≤ (sortScoreDesc (scoredList (sortByNameAsc files))).length := by
    rw [hperm.length_eq]
    exact h2
  cases hms : sortScoreDesc (scoredList (sortByNameAsc files)) with
  | nil =>
    rw [hms] at hlen
    simp at hlen
  | cons a tl =>
    cases tl with
    | nil =>
      rw [hms] at hlen
      simp at hlen
    | cons b rest =>
      rw [hms] at hsorted hperm
      rcases List.pairwise_cons.mp hsorted with ⟨ha, hsorted2⟩
      rcases List.pairwise_cons.mp hsorted2 with ⟨hb, _⟩
      have hab : selBefore a b := ha b (List.mem_cons_self _ _)
      refine ⟨a, b, ?_, ?_, ?_, ?_, hab, ?_⟩
      · show (sortScoreDesc (scoredList (sortByNameAsc files))).take 2 = [a, b]
        rw [hms]
        rfl
      · exact hperm.subset (List.mem_cons_self _ _)
      · exact hperm.subset (List.mem_cons_of_mem _ (List.mem_cons_self _ _))
      · rcases hab with h | h
        · exact le_of_lt h
        · exact le_of_eq h.1.symm
      · intro c hc hca hcb
        have hc2 : c ∈ a :: b :: rest := hperm.mem_iff.mpr hc
        rcases List.mem_cons.mp hc2 with rfl | hc3
        · exact absurd rfl hca
        · rcases List.mem_cons.mp hc3 with rfl | hc4
          · exact absurd rfl hcb
          · exact ⟨ha c (List.mem_cons_of_mem _ hc4), hb c hc4⟩

/-- C7 witness (scenario A): round 0 with `N = 3` and scores
`[7, 4, 9]` — selection returns the score-9 candidate then the score-7
candidate. -/
theorem pick_top2_spec_witness :
    pick_top2 [("variant_01", some (.obj [("score", .int 7)])),
               ("variant_02", some (.obj [("score", .int 4)])),
               ("variant_03", some (.obj [("score", .int 9)]))] =
      [("variant_03", 9), ("variant_01", 7)] ∧
    ∃ a b, pick_top2 [("variant_01", some (.obj [("score", .int 7)])),
               ("variant_02", some (.obj [("score", .int 4)])),
               ("variant_03", some (.obj [("score", .int 9)]))] = [a, b] ∧
      b.2 ≤ a.2 ∧ selBefore a b := by
  refine ⟨rfl, ?_⟩
  obtain ⟨a, b, h1, _, _, h4, h5, _⟩ := (pick_top2_spec
    [("variant_01", some (.obj [("score", .int 7)])),
     ("variant_02", some (.obj [("score", .int 4)])),
     ("variant_03", some (.obj [("score", .int 9)]))] (by decide) (by decide)).2
  exact ⟨a, b, h1, h4, h5⟩

end CADmimic
